import Mathlib

/-!
Verification of the editing core of `src/views/code.rs` (the `CodeArea`
widget and its `DefaultHighlighter`).

Shallow embedding conventions:
* A buffer line is a `List Char` (`Line`); Rust `String` is byte-indexed, but
  every claim and every literal in the source is ASCII, where byte indices and
  character indices coincide, so a character list is a faithful model.
* The cursor is an `Int × Int` pair, matching the `(i32, i32)` cursor of the
  source (we ignore 32-bit overflow, which no claim concerns).
* Rust operations that would panic on out-of-range indices
  (`String::insert`, `String::remove`, slicing, `Vec::remove`, `Vec::insert`)
  are modelled with total list functions (`List.insertIdx`, `List.eraseIdx`,
  `take`/`drop`).  The reachability invariant proved below shows the panicking
  situations do not arise from the public operations.
* File IO is modelled by passing the result of `read_to_string` as an
  `Option Line` parameter to `open_file`.
-/

namespace Editor

/-- A buffer line: the characters of one line of text. -/
abbrev Line := List Char

/-- The editor state, after `CodeArea` in the source.  The field `commentStr`
models the source field `comment_prefix` (renamed only in the Lean text);
`contents`, `clipboard`, `cursor`, `selection_marker`, `filename` keep their
source names.  The view-layer fields (`highlighter`, `enabled`, `scrollbase`)
play no role in any claim and are omitted. -/
structure CodeArea where
  filename : String
  selection_marker : Option (Int × Int)
  commentStr : Line
  contents : List Line
  clipboard : Line
  cursor : Int × Int
deriving DecidableEq

/-- Source `CodeArea::new`: two empty lines, cursor at the origin,
comment marker `"// "`, empty clipboard, no selection. -/
def new : CodeArea :=
  { filename := ""
    selection_marker := none
    commentStr := "// ".data
    contents := [[], []]
    clipboard := []
    cursor := (0, 0) }

/-- The clamped index used by the source accessors
`self.contents[min(max(i, 0), len - 1)]`. -/
def clampIdx (s : CodeArea) (i : Int) : Nat :=
  (min (max i 0) ((s.contents.length : Int) - 1)).toNat

/-- Source `CodeArea::row` (read side): the line at the clamped index. -/
def rowGet (s : CodeArea) (i : Int) : Line :=
  s.contents.getD (clampIdx s i) []

/-- Source `CodeArea::row` (write side): replace the line at the clamped
index. -/
def rowSet (s : CodeArea) (i : Int) (l : Line) : CodeArea :=
  { s with contents := s.contents.set (clampIdx s i) l }

/-- Mutate the line at the clamped index in place. -/
def modifyRow (s : CodeArea) (i : Int) (f : Line → Line) : CodeArea :=
  rowSet s i (f (rowGet s i))

/-- Source `CodeArea::row_len`: length of the line at the clamped index. -/
def rowLen (s : CodeArea) (i : Int) : Int :=
  ((rowGet s i).length : Int)

/-- Source `CodeArea::fix_cursor`: clamp a too-large row to the last line
(placing the column at that line's end), then clamp a too-large column to the
current line length.  Negative coordinates are NOT repaired, exactly as in the
source. -/
def fix_cursor (s : CodeArea) : CodeArea :=
  let row := s.cursor.1
  let col := s.cursor.2
  let rc :=
    if row ≥ (s.contents.length : Int) then
      let r := max ((s.contents.length : Int) - 1) 0
      (r, rowLen s r)
    else (row, col)
  let c2 := if rc.2 > rowLen s rc.1 then rowLen s rc.1 else rc.2
  { s with cursor := (rc.1, c2) }

/-- Source `line.replace("\n", "")`: delete every line-break character. -/
def stripNL (l : Line) : Line :=
  l.filter (fun c => c ≠ '\n')

/-- Source `CodeArea::fix_newline`: strip embedded line breaks from every
line, then append an empty line if the final line is not empty. -/
def fix_newline (s : CodeArea) : CodeArea :=
  let s := { s with contents := s.contents.map stripNL }
  if s.contents.getLast? = some [] then s
  else { s with contents := s.contents ++ [[]] }

/-- Source `CodeArea::fix`: `fix_cursor` then `fix_newline`. -/
def fix (s : CodeArea) : CodeArea :=
  fix_newline (fix_cursor s)

/-- Source `CodeArea::is_selecting`. -/
def is_selecting (s : CodeArea) : Bool :=
  s.selection_marker.isSome

/-- Source `CodeArea::continue_selection`: set the anchor to the cursor
unless one is already active. -/
def continue_selection (s : CodeArea) : CodeArea :=
  if s.selection_marker.isSome then s
  else { s with selection_marker := some s.cursor }

/-- Source `CodeArea::forget_selection`. -/
def forget_selection (s : CodeArea) : CodeArea :=
  { s with selection_marker := none }

/-- Source `CodeArea::move_cursor_home`: column zero, no repair step. -/
def move_cursor_home (s : CodeArea) : CodeArea :=
  { s with cursor := (s.cursor.1, 0) }

/-- Source `CodeArea::move_cursor_end`: column at line end, no repair step. -/
def move_cursor_end (s : CodeArea) : CodeArea :=
  { s with cursor := (s.cursor.1, rowLen s s.cursor.1) }

/-- Source `CodeArea::move_cursor_left`: no-op at the origin; wraps from
column zero to the end of the previous line; otherwise one column left.
Ends with the repair step except on the no-op path. -/
def move_cursor_left (s : CodeArea) : CodeArea :=
  if s.cursor = (0, 0) then s
  else
    let row := s.cursor.1
    let col := s.cursor.2
    let s :=
      if col = 0 then { s with cursor := (row - 1, rowLen s (row - 1)) }
      else { s with cursor := (row, col - 1) }
    fix s

/-- Source `CodeArea::move_cursor_right`: on an empty line or at line end,
go to column zero of the next row; otherwise one column right.  Ends with the
repair step. -/
def move_cursor_right (s : CodeArea) : CodeArea :=
  let row := s.cursor.1
  let col := s.cursor.2
  let s :=
    if rowLen s row = 0 then { s with cursor := (row + 1, 0) }
    else if rowLen s row = col then { s with cursor := (row + 1, 0) }
    else { s with cursor := (row, col + 1) }
  fix s

/-- Source `CodeArea::move_cursor_up`: no-op on the first row, otherwise one
row up followed by the repair step. -/
def move_cursor_up (s : CodeArea) : CodeArea :=
  if s.cursor.1 = 0 then s
  else
    let s := { s with cursor := (s.cursor.1 - 1, s.cursor.2) }
    fix s

/-- Source `CodeArea::move_cursor_down`: one row down followed by the repair
step. -/
def move_cursor_down (s : CodeArea) : CodeArea :=
  fix { s with cursor := (s.cursor.1 + 1, s.cursor.2) }

/-- Source `CodeArea::move_page_up`: eight single-row moves up. -/
def move_page_up (s : CodeArea) : CodeArea :=
  move_cursor_up^[8] s

/-- Source `CodeArea::move_page_down`: eight single-row moves down. -/
def move_page_down (s : CodeArea) : CodeArea :=
  move_cursor_down^[8] s

/-- Source `CodeArea::delete`: repair, then either join the next line onto
the cursor line (cursor at or past line end, not on the last line), or remove
the character under the cursor (not on the last line), or do nothing; then
repair again. -/
def delete (s0 : CodeArea) : CodeArea :=
  let s := fix s0
  let row := s.cursor.1
  let col := s.cursor.2
  let s :=
    if col ≥ rowLen s row ∧ row < (s.contents.length : Int) - 1 then
      let nxt := rowGet s (row + 1)
      let s := rowSet s row (rowGet s row ++ nxt)
      { s with contents := s.contents.eraseIdx (row + 1).toNat }
    else if row < (s.contents.length : Int) - 1 then
      modifyRow s row (fun l => l.eraseIdx col.toNat)
    else s
  fix s

/-- Source `CodeArea::backspace`: no-op at the origin, else move left and
delete. -/
def backspace (s : CodeArea) : CodeArea :=
  if s.cursor = (0, 0) then s
  else delete (move_cursor_left s)

/-- The line-break and ordinary-character arms of `CodeArea::insert` (the tab
arm is handled in `insert` below).  A line break splits the line at the
cursor; any other character is inserted at the cursor column followed by
`move_cursor_right`.  Both paths end with the repair step. -/
def insertBase (s : CodeArea) (ch : Char) : CodeArea :=
  let row := s.cursor.1
  let col := s.cursor.2
  if ch = '\n' then
    let before := (rowGet s row).take col.toNat
    let after := (rowGet s row).drop col.toNat
    let s := rowSet s row before
    let s := { s with contents := List.insertIdx (row + 1).toNat after s.contents }
    fix { s with cursor := (row + 1, 0) }
  else
    let s := modifyRow s row (fun l => List.insertIdx col.toNat ch l)
    fix (move_cursor_right s)

/-- Source `CodeArea::insert`.  The tab arm calls `insert_str("    ")` and
then repairs; since a space is neither a tab nor handled specially, that call
unfolds to four `insertBase` steps followed by the trailing repair of
`insert_str`, which is the inlined form used here (see `insert_tab_eq`). -/
def insert (s : CodeArea) (ch : Char) : CodeArea :=
  if ch = '\t' then fix (fix (("    ".data).foldl insertBase s))
  else insertBase s ch

/-- Source `CodeArea::insert_str`: insert every character in order, then
repair. -/
def insert_str (s : CodeArea) (str : Line) : CodeArea :=
  fix (str.foldl insert s)

/-- Source `CodeArea::paste`: insert the clipboard at the cursor, then
repair. -/
def paste (s : CodeArea) : CodeArea :=
  fix (insert_str s s.clipboard)

/-- The per-line summand of the selection size computation in
`CodeArea::cut`. -/
def cutSpanSummand (s : CodeArea) (top bottom : Int × Int) (ln : Int) : Int :=
  if ln = top.1 ∧ ln = bottom.1 then bottom.2 - top.2 - 1
  else if ln = top.1 then rowLen s ln - top.2
  else if top.1 < ln ∧ ln < bottom.1 then rowLen s ln + 1
  else if ln = bottom.1 then bottom.2
  else 0

/-- The `chars_between` loop of `CodeArea::cut`: sum the summands for
`ln` in `top.1 .. bottom.1` inclusive. -/
def charsBetween (s : CodeArea) (top bottom : Int × Int) : Int :=
  (List.range (bottom.1 - top.1 + 1).toNat).foldl
    (fun acc k => acc + cutSpanSummand s top bottom (top.1 + (k : Int))) 0

/-- One iteration of the removal loop in `CodeArea::cut`: record the
character at the (fixed) top position, `'\n'` when none, and delete at the
cursor. -/
def cutStep (tr tc : Int) (p : CodeArea × Line) : CodeArea × Line :=
  let c? := if tc < 0 then none else (rowGet p.1 tr).get? tc.toNat
  match c? with
  | some c => (delete p.1, p.2 ++ [c])
  | none => (delete p.1, p.2 ++ ['\n'])

/-- Source `CodeArea::cut`.  With a selection whose anchor differs from the
cursor: order anchor and cursor into top and bottom, count the characters in
between, move the cursor to top and repeatedly delete, storing the removed
text in the clipboard.  With an anchor equal to the cursor: return directly
(after the initial repair).  With no selection: remove the whole cursor line
(if more than one line remains) into the clipboard with a trailing line
break. -/
def cut (s0 : CodeArea) : CodeArea :=
  let s := fix s0
  let row := s.cursor.1
  let col := s.cursor.2
  match s.selection_marker with
  | some (mrow, mcol) =>
    if mrow = row ∧ mcol = col then s
    else
      let tb :=
        if mrow < row then ((mrow, mcol), (row, col))
        else if row < mrow then ((row, col), (mrow, mcol))
        else if mcol < col then ((mrow, mcol), (row, col))
        else ((row, col), (mrow, mcol))
      let cb := charsBetween s tb.1 tb.2
      let s := { s with cursor := tb.1 }
      let p := (cutStep tb.1.1 tb.1.2)^[(cb + 1).toNat] (s, [])
      let s := { p.1 with clipboard := p.2 }
      fix s
  | none =>
    if 1 < s.contents.length then
      let res := rowGet s row ++ ['\n']
      let s := { s with contents := s.contents.eraseIdx row.toNat }
      let s := { s with clipboard := res }
      fix (move_cursor_home s)
    else fix s

/-- Source `CodeArea::copy`: with a selection, cut then paste and restore the
saved cursor; without one, store a line break followed by the cursor line in
the clipboard.  Ends with the repair step. -/
def copy (s : CodeArea) : CodeArea :=
  let save := s.cursor
  let s :=
    if s.selection_marker.isSome then
      let s := cut s
      let s := paste s
      { s with cursor := save }
    else
      { s with clipboard := '\n' :: rowGet s save.1 }
  fix s

/-- Source `CodeArea::copy_line_down`: insert a copy of the cursor line at
the cursor row, move down, repair. -/
def copy_line_down (s : CodeArea) : CodeArea :=
  let row := s.cursor.1
  let cur := rowGet s row
  let s := { s with contents := List.insertIdx row.toNat cur s.contents }
  fix (move_cursor_down s)

/-- Source `CodeArea::comment_current_line`: move the cursor to column zero;
comment (prepend the marker, cursor column shifted right by its length) when
the line is shorter than the marker or does not begin with it, otherwise
uncomment (drop the marker from the front, cursor column shifted left,
floored at zero).  Ends with the repair step. -/
def comment_current_line (s0 : CodeArea) : CodeArea :=
  let row := s0.cursor.1
  let col := s0.cursor.2
  let n := s0.commentStr.length
  let cmt := s0.commentStr
  let s := { s0 with cursor := (row, 0) }
  let should : Bool :=
    if (rowGet s row).length < n then true
    else if (rowGet s row).take n = cmt then false
    else true
  if should then
    let s := insert_str s cmt
    fix { s with cursor := (row, col + (n : Int)) }
  else
    let s := modifyRow s row (fun l => l.drop n)
    fix { s with cursor := if col ≤ (n : Int) then (row, 0) else (row, col - (n : Int)) }

/-- Source `CodeArea::comment_selection`: with a selection, toggle the
comment on every row between anchor row and cursor row (inclusive, in order),
then put the cursor back on its original row with the column shifted right by
one marker length.  Ends with the repair step. -/
def comment_selection (s0 : CodeArea) : CodeArea :=
  let ir := s0.cursor.1
  let ic := s0.cursor.2
  let s :=
    match s0.selection_marker with
    | some (mrow, _) =>
      let b := min mrow ir
      let e := max mrow ir
      let s := (List.range (e - b + 1).toNat).foldl
        (fun s (k : Nat) =>
          comment_current_line { s with cursor := (b + (k : Int), 0) }) s0
      { s with cursor := (ir, ic + (s.commentStr.length : Int)) }
    | none => s0
  fix s

/-- Source `CodeArea::move_line_up`: swap the cursor line with the one above
(both accesses clamped), cursor follows, floored at row zero.  No repair
step. -/
def move_line_up (s : CodeArea) : CodeArea :=
  let row := s.cursor.1
  let col := s.cursor.2
  let cur := rowGet s row
  let prev := rowGet s (row - 1)
  let s := rowSet s row prev
  let s := rowSet s (row - 1) cur
  { s with cursor := (max (row - 1) 0, col) }

/-- Source `CodeArea::move_line_down`: swap the cursor line with the one
below (both accesses clamped), cursor follows, capped at the last row.  No
repair step. -/
def move_line_down (s : CodeArea) : CodeArea :=
  let row := s.cursor.1
  let col := s.cursor.2
  let cur := rowGet s row
  let nxt := rowGet s (row + 1)
  let s := rowSet s row nxt
  let s := rowSet s (row + 1) cur
  { s with cursor := (min (row + 1) ((s.contents.length : Int) - 1), col) }

/-- Source `CodeArea::with_content`: insert the text, then reset the cursor
to the origin. -/
def with_content (s : CodeArea) (content : Line) : CodeArea :=
  { insert_str s content with cursor := (0, 0) }

/-- Source `CodeArea::open_file`: record the filename; on a successful read
load the contents, otherwise return the state unchanged (no error is
surfaced).  The IO result of `read_to_string` is passed in as `result`. -/
def open_file (s : CodeArea) (file : String) (result : Option Line) : CodeArea :=
  let s := { s with filename := file }
  match result with
  | some c => with_content s c
  | none => s

/-! ## The default highlighter

`DefaultHighlighter::highlight` appends a sentinel space to the line and
scans it left to right; at each index it first tries the keyword table, then
the type table (whole-word matches emit the word and set a skip count), and
otherwise classifies the single character.  The styled output is modelled as
the list of appended `(text, style)` spans; the concrete colors attached to
each style in the source are irrelevant to every claim and are reduced to
the style tag. -/

/-- One style tag per color style used by `DefaultHighlighter`. -/
inductive HStyle
  | plain
  | keyword
  | typeS
  | stringS
  | numberS
  | symbolS
deriving DecidableEq

/-- Scanner state: appended spans, the in-string flag, and the skip count. -/
structure HState where
  spans : List (Line × HStyle)
  in_string : Bool
  skip : Nat
deriving DecidableEq

/-- The keyword table of `DefaultHighlighter`. -/
def keywords : List Line :=
  ["class", "struct", "use", "import", "trait", "type", "impl", "pub", "let",
   "if", "while", "for", "else", "mut", "in", "match", "continue", "break",
   "fn", "def", "lambda", "return", "new", "data", "begin", "end", "then",
   "is", "enum", "do", "var", "static", "public", "private", "where",
   "include", "define", "pragma", "const"].map String.data

/-- The type table of `DefaultHighlighter`. -/
def types : List Line :=
  ["Self", "Vec", "i32", "i64", "f32", "f64", "int", "double", "float",
   "char", "bool", "self", "String", "str", "true", "false", "True",
   "False"].map String.data

/-- The symbol set of `DefaultHighlighter` (braces written by code point). -/
def symbols : List Char :=
  [';', ',', ':', '?', Char.ofNat 123, Char.ofNat 125, '(', ')', '!']

/-- Whether a table entry begins with an alphabetic character (true for
every keyword and type entry). -/
def headAlpha : Line → Bool
  | [] => false
  | c :: _ => c.isAlpha

/-- The per-key guard shared by both table loops: the guard
`if i > 0 && code.chars().nth(i - 1).is_alphabetic() { continue }`. -/
def prevAlphaBlock (code : Line) (i : Nat) : Bool :=
  0 < i &&
    (match code.get? (i - 1) with
     | some c => c.isAlpha
     | none => false)

/-- The per-entry test of the table loops: the length guard
`code.len() < i + key.len() + 1`, the slice comparison
`&code[i..i + key.len()] == *key`, and the following-character test
`!code.chars().nth(i + key.len()).is_alphabetic()` (false when absent). -/
def entryTest (code : Line) (i : Nat) (e : Line) : Bool :=
  decide (i + e.length + 1 ≤ code.length) &&
  ((code.drop i).take e.length == e) &&
  (match code.get? (i + e.length) with
   | some c => !c.isAlpha
   | none => false)

/-- A table loop: `none` when the previous character blocks any match,
otherwise the first entry that passes `entryTest` (the loop breaks on the
first hit). -/
def findEntry (entries : List Line) (code : Line) (i : Nat) : Option Line :=
  if prevAlphaBlock code i then none
  else entries.find? (entryTest code i)

/-- The single-character classification of the scan: an escaped double quote
(`i > 1` and a backslash immediately before) is styled as a string without
toggling the mode; an unescaped double quote is styled as a string and
toggles the mode; a decimal digit is a number; any character while in-string
is a string; a symbol-set character is a symbol; everything else is plain. -/
def classify (code : Line) (i : Nat) (ch : Char) (st : HState) : HState :=
  if ch = '"' ∧ 1 < i ∧ code.get? (i - 1) = some '\\' then
    { st with spans := st.spans ++ [(['"'], HStyle.stringS)] }
  else if ch = '"' then
    { st with spans := st.spans ++ [(['"'], HStyle.stringS)],
              in_string := !st.in_string }
  else if ch.isDigit then
    { st with spans := st.spans ++ [([ch], HStyle.numberS)] }
  else if st.in_string then
    { st with spans := st.spans ++ [([ch], HStyle.stringS)] }
  else if symbols.contains ch then
    { st with spans := st.spans ++ [([ch], HStyle.symbolS)] }
  else
    { st with spans := st.spans ++ [([ch], HStyle.plain)] }

/-- One loop iteration of `DefaultHighlighter::highlight` at index `i`: run
the keyword table, then the type table (each hit appends its span and resets
the skip count), then either consume a pending skip or classify the
character. -/
def stepHighlight (code : Line) (i : Nat) (st : HState) : HState :=
  let st :=
    match findEntry keywords code i with
    | some k => { st with spans := st.spans ++ [(k, HStyle.keyword)], skip := k.length }
    | none => st
  let st :=
    match findEntry types code i with
    | some t => { st with spans := st.spans ++ [(t, HStyle.typeS)], skip := t.length }
    | none => st
  if 0 < st.skip then { st with skip := st.skip - 1 }
  else
    match code.get? i with
    | some ch => classify code i ch st
    | none => st

/-- The full scan of `DefaultHighlighter::highlight` over `line` with the
sentinel space appended, returning the final scanner state. -/
def highlightRun (line : Line) : HState :=
  let code := line ++ [' ']
  (List.range code.length).foldl (fun st i => stepHighlight code i st)
    { spans := [], in_string := false, skip := 0 }

/-- The styled spans produced by `DefaultHighlighter::highlight`. -/
def highlight (line : Line) : List (Line × HStyle) :=
  (highlightRun line).spans

/-! ## Invariant predicates -/

/-- A line with no embedded line break. -/
def NoNL (l : Line) : Prop := '\n' ∉ l

/-- Every buffer line is free of embedded line breaks. -/
def LinesOK (s : CodeArea) : Prop := ∀ l ∈ s.contents, NoNL l

/-- The cursor bounds stated by the spec: `0 ≤ row < line_count` and
`0 ≤ col ≤ length(row)`. -/
def CursorOK (s : CodeArea) : Prop :=
  0 ≤ s.cursor.1 ∧ s.cursor.1 < (s.contents.length : Int) ∧
    0 ≤ s.cursor.2 ∧ s.cursor.2 ≤ rowLen s s.cursor.1

/-- The selection anchor, when present, has nonnegative coordinates. -/
def MarkerOK (s : CodeArea) : Prop :=
  ∀ p, s.selection_marker = some p → 0 ≤ p.1 ∧ 0 ≤ p.2

instance (s : CodeArea) : Decidable (MarkerOK s) :=
  match h : s.selection_marker with
  | none => .isTrue (fun p hp => by rw [h] at hp; cases hp)
  | some q =>
    decidable_of_iff (0 ≤ q.1 ∧ 0 ≤ q.2)
      ⟨fun hq p hp => by rw [h] at hp; cases hp; exact hq,
       fun H => H q h⟩

/-- The part of the state invariant that survives arbitrary intermediate
cursor positions: coordinates are nonnegative, lines and the comment marker
carry no line break, and the anchor is nonnegative. -/
def Pre (s : CodeArea) : Prop :=
  0 ≤ s.cursor.1 ∧ 0 ≤ s.cursor.2 ∧ LinesOK s ∧ MarkerOK s ∧
    NoNL s.commentStr

/-- The full state invariant of claim C1. -/
def Inv (s : CodeArea) : Prop :=
  CursorOK s ∧ LinesOK s ∧ MarkerOK s ∧ NoNL s.commentStr

/-- A state on which the repair step is the identity: valid cursor, no
embedded line breaks, and an empty final line. -/
def Normal (s : CodeArea) : Prop :=
  CursorOK s ∧ LinesOK s ∧ s.contents.getLast? = some []

instance (l : Line) : Decidable (NoNL l) := by
  unfold NoNL
  infer_instance

instance (s : CodeArea) : Decidable (LinesOK s) := by
  unfold LinesOK
  infer_instance

instance (s : CodeArea) : Decidable (CursorOK s) := by
  unfold CursorOK
  infer_instance

instance (s : CodeArea) : Decidable (Pre s) := by
  unfold Pre
  infer_instance

instance (s : CodeArea) : Decidable (Inv s) := by
  unfold Inv
  infer_instance

instance (s : CodeArea) : Decidable (Normal s) := by
  unfold Normal
  infer_instance

/-! ## Reachability -/

/-- The public edit and cursor operations of `CodeArea`: every state-mutating
operation of the widget's editing API (the bindings dispatched from
`on_event` plus the public cursor and selection methods). -/
inductive Op
  | ins (ch : Char)
  | insStr (str : Line)
  | del
  | back
  | cutOp
  | copyOp
  | pasteOp
  | dupLineDown
  | cmtLine
  | cmtSel
  | lineUp
  | lineDown
  | home
  | toEnd
  | left
  | right
  | up
  | down
  | pageUp
  | pageDown
  | selOn
  | selOff

/-- Apply one public operation. -/
def applyOp : Op → CodeArea → CodeArea
  | .ins ch, s => insert s ch
  | .insStr str, s => insert_str s str
  | .del, s => delete s
  | .back, s => backspace s
  | .cutOp, s => cut s
  | .copyOp, s => copy s
  | .pasteOp, s => paste s
  | .dupLineDown, s => copy_line_down s
  | .cmtLine, s => comment_current_line s
  | .cmtSel, s => comment_selection s
  | .lineUp, s => move_line_up s
  | .lineDown, s => move_line_down s
  | .home, s => move_cursor_home s
  | .toEnd, s => move_cursor_end s
  | .left, s => move_cursor_left s
  | .right, s => move_cursor_right s
  | .up, s => move_cursor_up s
  | .down, s => move_cursor_down s
  | .pageUp, s => move_page_up s
  | .pageDown, s => move_page_down s
  | .selOn, s => continue_selection s
  | .selOff, s => forget_selection s

/-- States reachable from the fresh editor by sequences of public edit and
cursor operations. -/
inductive Reachable : CodeArea → Prop
  | base : Reachable new
  | step {s : CodeArea} (o : Op) : Reachable s → Reachable (applyOp o s)

/-- The post-repair buffer property of claim C10: the buffer is nonempty,
its final line is the empty string, and no line contains an embedded line
break. -/
def RepairedBuffer (s : CodeArea) : Prop :=
  s.contents ≠ [] ∧ s.contents.getLast? = some [] ∧ LinesOK s

instance (s : CodeArea) : Decidable (RepairedBuffer s) := by
  unfold RepairedBuffer
  infer_instance

/-- The scenario state of claim C4: buffer `["hello", "world", ""]`, cursor
at the origin. -/
def c4state : CodeArea :=
  { new with contents := ["hello".data, "world".data, []], cursor := (0, 0) }

/-- A small normal editor state: buffer `["a", ""]`, cursor (0, 1),
no selection. -/
def aState : CodeArea :=
  { new with contents := [['a'], []], cursor := (0, 1) }

/-- A normal editor state for the C6 witness: buffer `["ab", ""]`,
cursor (0, 2). -/
def c6state : CodeArea :=
  { new with contents := [['a', 'b'], []], cursor := (0, 2) }

/-- A normal editor state for the C10 witness: buffer `["a", ""]`, cursor
(1, 0) — away from the origin and off the first row. -/
def c10state : CodeArea :=
  { new with contents := [['a'], []], cursor := (1, 0) }

/-- The second half of the repair step in isolation: append an empty line
when the final line is not empty (the buffers encountered below have no
embedded line breaks, so the stripping pass of `fix_newline` is the
identity on them). -/
def normPad (s : CodeArea) : CodeArea :=
  if s.contents.getLast? = some [] then s
  else { s with contents := s.contents ++ [[]] }

/-- A state whose cursor line is doubly commented: buffer `["// // x", ""]`,
cursor at the origin — toggling the comment twice turns the line into
`"x"`. -/
def c5state : CodeArea :=
  { new with contents := ["// // x".data, []], cursor := (0, 0) }

/-- A state for the C5 witness: buffer `["x", ""]`, cursor (0, 1); the line
does not start with the comment marker. -/
def c5wstate : CodeArea :=
  { new with contents := [['x'], []], cursor := (0, 1) }

/-! ## Field-preservation lemmas for the repair step -/

theorem fix_cursor_contents (s : CodeArea) :
    (fix_cursor s).contents = s.contents := rfl

theorem fix_cursor_marker (s : CodeArea) :
    (fix_cursor s).selection_marker = s.selection_marker := rfl

theorem fix_cursor_clipboard (s : CodeArea) :
    (fix_cursor s).clipboard = s.clipboard := rfl

theorem fix_cursor_commentStr (s : CodeArea) :
    (fix_cursor s).commentStr = s.commentStr := rfl

theorem fix_cursor_filename (s : CodeArea) :
    (fix_cursor s).filename = s.filename := rfl

theorem fix_newline_marker (s : CodeArea) :
    (fix_newline s).selection_marker = s.selection_marker := by
  unfold fix_newline; dsimp only; split <;> rfl

theorem fix_newline_cursor (s : CodeArea) :
    (fix_newline s).cursor = s.cursor := by
  unfold fix_newline; dsimp only; split <;> rfl

theorem fix_newline_clipboard (s : CodeArea) :
    (fix_newline s).clipboard = s.clipboard := by
  unfold fix_newline; dsimp only; split <;> rfl

theorem fix_newline_commentStr (s : CodeArea) :
    (fix_newline s).commentStr = s.commentStr := by
  unfold fix_newline; dsimp only; split <;> rfl

theorem fix_newline_filename (s : CodeArea) :
    (fix_newline s).filename = s.filename := by
  unfold fix_newline; dsimp only; split <;> rfl

theorem fix_marker (s : CodeArea) :
    (fix s).selection_marker = s.selection_marker := by
  unfold fix; rw [fix_newline_marker, fix_cursor_marker]

theorem fix_clipboard (s : CodeArea) :
    (fix s).clipboard = s.clipboard := by
  unfold fix; rw [fix_newline_clipboard, fix_cursor_clipboard]

theorem fix_commentStr (s : CodeArea) :
    (fix s).commentStr = s.commentStr := by
  unfold fix; rw [fix_newline_commentStr, fix_cursor_commentStr]

theorem fix_filename (s : CodeArea) :
    (fix s).filename = s.filename := by
  unfold fix; rw [fix_newline_filename, fix_cursor_filename]

/-! ## Basic facts about the clamped row accessors -/

theorem rowLen_nonneg (s : CodeArea) (i : Int) : 0 ≤ rowLen s i :=
  Int.ofNat_nonneg _

theorem clampIdx_eq (s : CodeArea) {i : Int} (h0 : 0 ≤ i)
    (h1 : i < (s.contents.length : Int)) : clampIdx s i = i.toNat := by
  unfold clampIdx
  rw [max_eq_left h0, min_eq_left (by omega)]

theorem clampIdx_lt (s : CodeArea) (i : Int) (h : s.contents ≠ []) :
    clampIdx s i < s.contents.length := by
  unfold clampIdx
  have hlen : 1 ≤ s.contents.length := by
    cases hc : s.contents with
    | nil => exact absurd hc h
    | cons a l => simp
  have : min (max i 0) ((s.contents.length : Int) - 1) ≤
      (s.contents.length : Int) - 1 := min_le_right _ _
  omega

theorem NoNL_rowGet {s : CodeArea} (h : LinesOK s) (i : Int) :
    NoNL (rowGet s i) := by
  unfold rowGet
  rw [List.getD_eq_getElem?_getD]
  cases hg : s.contents[clampIdx s i]? with
  | none => intro hc; simp at hc
  | some l =>
    have : l ∈ s.contents := by
      have := List.getElem?_mem hg
      exact this
    simpa using h l this

theorem NoNL_nil : NoNL ([] : Line) := by intro h; simp at h

theorem NoNL_append {l₁ l₂ : Line} (h₁ : NoNL l₁) (h₂ : NoNL l₂) :
    NoNL (l₁ ++ l₂) := by
  intro h
  rcases List.mem_append.mp h with h | h
  exacts [h₁ h, h₂ h]

theorem NoNL_take {l : Line} (h : NoNL l) (n : Nat) : NoNL (l.take n) :=
  fun hm => h (List.take_subset n l hm)

theorem NoNL_drop {l : Line} (h : NoNL l) (n : Nat) : NoNL (l.drop n) :=
  fun hm => h (List.drop_subset n l hm)

theorem NoNL_eraseIdx {l : Line} (h : NoNL l) (n : Nat) :
    NoNL (l.eraseIdx n) :=
  fun hm => h ((List.eraseIdx_sublist l n).mem hm)

theorem NoNL_stripNL (l : Line) : NoNL (stripNL l) := by
  intro h
  unfold stripNL at h
  rcases List.mem_filter.mp h with ⟨-, hb⟩
  simp at hb

theorem stripNL_eq_self {l : Line} (h : NoNL l) : stripNL l = l := by
  unfold stripNL
  rw [List.filter_eq_self]
  intro a ha
  simp only [ne_eq, decide_eq_true_eq]
  intro hEq
  exact h (hEq ▸ ha)

theorem mem_insertIdx_gen {α : Type} {a b : α} :
    ∀ (n : Nat) (l : List α), a ∈ List.insertIdx n b l → a = b ∨ a ∈ l := by
  intro n
  induction n with
  | zero =>
    intro l h
    rcases List.mem_cons.mp (show a ∈ b :: l from h) with h | h
    · exact Or.inl h
    · exact Or.inr h
  | succ n ih =>
    intro l h
    cases l with
    | nil => exact Or.inr (show a ∈ ([] : List α) from h)
    | cons x xs =>
      rcases List.mem_cons.mp
          (show a ∈ x :: List.insertIdx n b xs from h) with h | h
      · exact Or.inr (by rw [h]; exact List.mem_cons_self x xs)
      · rcases ih xs h with h2 | h2
        · exact Or.inl h2
        · exact Or.inr (List.mem_cons_of_mem _ h2)

theorem NoNL_insertIdx {l : Line} {ch : Char} (h : NoNL l) (hch : ch ≠ '\n')
    (n : Nat) : NoNL (List.insertIdx n ch l) := by
  intro hm
  rcases mem_insertIdx_gen n l hm with hEq | hm2
  · exact (hch hEq.symm).elim
  · exact h hm2

/-! ## Characterizations of the repair step -/

theorem rowGet_update_cursor (s : CodeArea) (x : Int × Int) (i : Int) :
    rowGet { s with cursor := x } i = rowGet s i := rfl

theorem rowLen_update_cursor (s : CodeArea) (x : Int × Int) (i : Int) :
    rowLen { s with cursor := x } i = rowLen s i := rfl

theorem rowGet_update_clipboard (s : CodeArea) (x : Line) (i : Int) :
    rowGet { s with clipboard := x } i = rowGet s i := rfl

theorem rowLen_update_clipboard (s : CodeArea) (x : Line) (i : Int) :
    rowLen { s with clipboard := x } i = rowLen s i := rfl

theorem fix_cursor_eq (s : CodeArea) :
    fix_cursor s =
      if s.cursor.1 ≥ (s.contents.length : Int) then
        { s with cursor := (max ((s.contents.length : Int) - 1) 0,
            rowLen s (max ((s.contents.length : Int) - 1) 0)) }
      else if s.cursor.2 > rowLen s s.cursor.1 then
        { s with cursor := (s.cursor.1, rowLen s s.cursor.1) }
      else
        { s with cursor := (s.cursor.1, s.cursor.2) } := by
  simp only [fix_cursor]
  by_cases h1 : s.cursor.1 ≥ (s.contents.length : Int)
  · simp only [if_pos h1]
    rw [if_neg (lt_irrefl _)]
  · simp only [if_neg h1]
    by_cases h2 : s.cursor.2 > rowLen s s.cursor.1
    · rw [if_pos h2, if_pos h2]
    · rw [if_neg h2, if_neg h2]

theorem fix_newline_eq (s : CodeArea) :
    fix_newline s =
      if (s.contents.map stripNL).getLast? = some [] then
        { s with contents := s.contents.map stripNL }
      else { s with contents := s.contents.map stripNL ++ [[]] } := rfl

theorem map_stripNL_eq {s : CodeArea} (h : LinesOK s) :
    s.contents.map stripNL = s.contents := by
  have h2 : ∀ l ∈ s.contents, stripNL l = l :=
    fun l hl => stripNL_eq_self (h l hl)
  calc s.contents.map stripNL = s.contents.map id := List.map_congr_left h2
  _ = s.contents := List.map_id _

theorem fix_cursor_eq_self {s : CodeArea} (h : CursorOK s) :
    fix_cursor s = s := by
  obtain ⟨h1, h2, h3, h4⟩ := h
  rw [fix_cursor_eq, if_neg (not_le.mpr h2), if_neg (not_lt.mpr h4),
    Prod.mk.eta]

theorem fix_newline_eq_self {s : CodeArea} (hl : LinesOK s)
    (hlast : s.contents.getLast? = some []) : fix_newline s = s := by
  rw [fix_newline_eq, map_stripNL_eq hl, if_pos hlast]

theorem fix_eq_self {s : CodeArea} (h : Normal s) : fix s = s := by
  obtain ⟨hck, hl, hlast⟩ := h
  unfold fix
  rw [fix_cursor_eq_self hck, fix_newline_eq_self hl hlast]

/-- After the repair step the buffer is nonempty, ends with an empty line,
and carries no embedded line break — unconditionally. -/
theorem fix_newline_post (t : CodeArea) :
    (fix_newline t).contents ≠ [] ∧
      (fix_newline t).contents.getLast? = some [] ∧
      LinesOK (fix_newline t) := by
  rw [fix_newline_eq]
  split
  case isTrue h =>
    refine ⟨?_, h, ?_⟩
    · show t.contents.map stripNL ≠ []
      intro hnil
      rw [hnil] at h
      simp at h
    · intro l hl
      rcases List.mem_map.mp hl with ⟨x, -, rfl⟩
      exact NoNL_stripNL x
  case isFalse h =>
    refine ⟨by simp, List.getLast?_concat _, ?_⟩
    intro l hl
    rcases List.mem_append.mp hl with hl | hl
    · rcases List.mem_map.mp hl with ⟨x, -, rfl⟩
      exact NoNL_stripNL x
    · rw [List.mem_singleton.mp hl]
      exact NoNL_nil

theorem fix_post (s : CodeArea) :
    (fix s).contents ≠ [] ∧ (fix s).contents.getLast? = some [] ∧
      LinesOK (fix s) :=
  fix_newline_post (fix_cursor s)

theorem rowGet_append (s : CodeArea) (l : Line) {i : Int} (h0 : 0 ≤ i)
    (h1 : i < (s.contents.length : Int)) :
    rowGet { s with contents := s.contents ++ [l] } i = rowGet s i := by
  unfold rowGet
  have hA : clampIdx { s with contents := s.contents ++ [l] } i = i.toNat := by
    apply clampIdx_eq _ h0
    show i < ((s.contents ++ [l]).length : Int)
    rw [List.length_append]
    push_cast
    omega
  rw [hA, clampIdx_eq s h0 h1]
  show (s.contents ++ [l]).getD i.toNat [] = s.contents.getD i.toNat []
  exact List.getD_append _ _ _ _ (by omega)

theorem rowLen_append (s : CodeArea) (l : Line) {i : Int} (h0 : 0 ≤ i)
    (h1 : i < (s.contents.length : Int)) :
    rowLen { s with contents := s.contents ++ [l] } i = rowLen s i := by
  unfold rowLen
  rw [rowGet_append s l h0 h1]

theorem fix_cursor_spec {s : CodeArea} (hr : 0 ≤ s.cursor.1)
    (hc : 0 ≤ s.cursor.2) (hne : s.contents ≠ []) :
    CursorOK (fix_cursor s) := by
  have hlen : 0 < s.contents.length := List.length_pos.mpr hne
  have hlen2 : (0 : Int) < (s.contents.length : Int) := by exact_mod_cast hlen
  rw [fix_cursor_eq]
  by_cases h1 : s.cursor.1 ≥ (s.contents.length : Int)
  · rw [if_pos h1]
    unfold CursorOK
    dsimp only [rowLen_update_cursor]
    exact ⟨le_max_right _ _, max_lt (by omega) hlen2,
      rowLen_nonneg _ _, le_refl _⟩
  · rw [if_neg h1]
    by_cases h2 : s.cursor.2 > rowLen s s.cursor.1
    · rw [if_pos h2]
      unfold CursorOK
      dsimp only [rowLen_update_cursor]
      exact ⟨hr, not_le.mp h1, rowLen_nonneg _ _, le_refl _⟩
    · rw [if_neg h2]
      unfold CursorOK
      dsimp only [rowLen_update_cursor]
      exact ⟨hr, not_le.mp h1, hc, not_lt.mp h2⟩

theorem MarkerOK_of_eq {s t : CodeArea}
    (hEq : t.selection_marker = s.selection_marker) (h : MarkerOK s) :
    MarkerOK t := by
  intro p hp
  exact h p (hEq ▸ hp)

theorem LinesOK_fix_cursor {s : CodeArea} (h : LinesOK s) :
    LinesOK (fix_cursor s) := by
  intro l hl
  rw [fix_cursor_contents] at hl
  exact h l hl

/-- On an empty buffer the repair step produces a one-line empty buffer with
the cursor at the origin (in bounds). -/
theorem fix_empty_cursorOK {s : CodeArea} (hne : s.contents = [])
    (hr : 0 ≤ s.cursor.1) : CursorOK (fix s) := by
  have hlen0 : (s.contents.length : Int) = 0 := by rw [hne]; rfl
  have hrow : s.cursor.1 ≥ (s.contents.length : Int) := by omega
  have hmax : max ((s.contents.length : Int) - 1) 0 = 0 := by
    rw [hlen0]
    norm_num
  have hr0 : rowLen s 0 = 0 := by
    simp [rowLen, rowGet, hne]
  unfold fix
  rw [fix_cursor_eq, if_pos hrow, hmax, hr0, fix_newline_eq]
  have ht : ({ s with cursor := ((0 : Int), (0 : Int)) } : CodeArea).contents
      = [] := hne
  rw [ht]
  rw [show (([] : List Line).map stripNL) = [] from rfl]
  rw [if_neg (by simp)]
  unfold CursorOK
  dsimp only
  refine ⟨le_refl _, by norm_num, le_refl _, rowLen_nonneg _ _⟩

/-- The repair step establishes the full invariant and the empty-final-line
property from the weak precondition. -/
theorem fix_inv {s : CodeArea} (h : Pre s) :
    Inv (fix s) ∧ (fix s).contents.getLast? = some [] := by
  obtain ⟨hr, hc, hlines, hmark, hcmt⟩ := h
  have hpost := fix_post s
  have hmark2 : MarkerOK (fix s) := MarkerOK_of_eq (fix_marker s) hmark
  have hcmt2 : NoNL (fix s).commentStr := by rw [fix_commentStr]; exact hcmt
  refine ⟨⟨?_, hpost.2.2, hmark2, hcmt2⟩, hpost.2.1⟩
  by_cases hne : s.contents = []
  · exact fix_empty_cursorOK hne hr
  · -- nonempty buffer: fix_cursor establishes the bounds, fix_newline at
    -- most appends a line after the cursor
    have hck : CursorOK (fix_cursor s) := fix_cursor_spec hr hc hne
    have hl2 : LinesOK (fix_cursor s) := LinesOK_fix_cursor hlines
    show CursorOK (fix_newline (fix_cursor s))
    rw [fix_newline_eq, map_stripNL_eq hl2]
    split
    · exact hck
    · obtain ⟨h1, h2, h3, h4⟩ := hck
      refine ⟨h1, ?_, h3, ?_⟩
      · show (fix_cursor s).cursor.1 <
          (((fix_cursor s).contents ++ [[]]).length : Int)
        rw [List.length_append]
        push_cast
        omega
      · show (fix_cursor s).cursor.2 ≤
          rowLen { fix_cursor s with contents := (fix_cursor s).contents ++ [[]] }
            (fix_cursor s).cursor.1
        rw [rowLen_append _ _ h1 h2]
        exact h4

theorem Inv_Pre {s : CodeArea} (h : Inv s) : Pre s :=
  ⟨h.1.1, h.1.2.2.1, h.2.1, h.2.2.1, h.2.2.2⟩

theorem fix_inv_of_inv {s : CodeArea} (h : Inv s) : Inv (fix s) :=
  (fix_inv (Inv_Pre h)).1

/-! ## Row accessor lemmas -/

theorem list_set_getD {α : Type} :
    ∀ (l : List α) (n : Nat) (d : α), l.set n (l.getD n d) = l := by
  intro l
  induction l with
  | nil => intro n d; rfl
  | cons x xs ih =>
    intro n d
    cases n with
    | zero => rfl
    | succ n =>
      show x :: xs.set n (xs.getD n d) = x :: xs
      rw [ih]

theorem clampIdx_rowSet (s : CodeArea) (i : Int) (l : Line) (j : Int) :
    clampIdx (rowSet s i l) j = clampIdx s j := by
  unfold clampIdx rowSet
  simp [List.length_set]

theorem rowSet_rowGet_self (s : CodeArea) (i : Int) :
    rowSet s i (rowGet s i) = s := by
  unfold rowSet rowGet
  rw [list_set_getD]

theorem rowGet_congr (s : CodeArea) {i j : Int}
    (h : clampIdx s i = clampIdx s j) : rowGet s i = rowGet s j := by
  unfold rowGet
  rw [h]

theorem rowSet_congr (s : CodeArea) {i j : Int} (l : Line)
    (h : clampIdx s i = clampIdx s j) : rowSet s i l = rowSet s j l := by
  unfold rowSet
  rw [h]

theorem toNat_lt_length {s : CodeArea} {i : Int} (h0 : 0 ≤ i)
    (h1 : i < (s.contents.length : Int)) : i.toNat < s.contents.length := by
  omega

theorem rowSet_contents (s : CodeArea) (i : Int) (l : Line) :
    (rowSet s i l).contents = s.contents.set (clampIdx s i) l := rfl

theorem rowGet_rowSet_self {s : CodeArea} {i : Int} (l : Line) (h0 : 0 ≤ i)
    (h1 : i < (s.contents.length : Int)) : rowGet (rowSet s i l) i = l := by
  unfold rowGet
  rw [clampIdx_rowSet, rowSet_contents, clampIdx_eq s h0 h1]
  rw [List.getD_eq_getElem?_getD,
    List.getElem?_set_self (toNat_lt_length h0 h1)]
  rfl

theorem rowGet_rowSet_ne {s : CodeArea} {i j : Int} (l : Line)
    (h : clampIdx s i ≠ clampIdx s j) :
    rowGet (rowSet s i l) j = rowGet s j := by
  unfold rowGet
  rw [clampIdx_rowSet, rowSet_contents]
  rw [List.getD_eq_getElem?_getD, List.getD_eq_getElem?_getD,
    List.getElem?_set_ne h]

theorem rowLen_rowSet_self {s : CodeArea} {i : Int} (l : Line) (h0 : 0 ≤ i)
    (h1 : i < (s.contents.length : Int)) :
    rowLen (rowSet s i l) i = (l.length : Int) := by
  unfold rowLen
  rw [rowGet_rowSet_self l h0 h1]

theorem rowSet_length (s : CodeArea) (i : Int) (l : Line) :
    (rowSet s i l).contents.length = s.contents.length := by
  unfold rowSet
  exact List.length_set _ _ _

theorem rowSet_marker (s : CodeArea) (i : Int) (l : Line) :
    (rowSet s i l).selection_marker = s.selection_marker := rfl

theorem rowSet_cursor (s : CodeArea) (i : Int) (l : Line) :
    (rowSet s i l).cursor = s.cursor := rfl

theorem rowSet_commentStr (s : CodeArea) (i : Int) (l : Line) :
    (rowSet s i l).commentStr = s.commentStr := rfl

theorem LinesOK_rowSet {s : CodeArea} (h : LinesOK s) {l : Line}
    (hl : NoNL l) (i : Int) : LinesOK (rowSet s i l) := by
  intro x hx
  rcases List.mem_or_eq_of_mem_set hx with hx | rfl
  · exact h x hx
  · exact hl

theorem LinesOK_eraseIdx_state {s : CodeArea} (h : LinesOK s) (n : Nat) :
    LinesOK { s with contents := s.contents.eraseIdx n } := by
  intro x hx
  exact h x ((List.eraseIdx_sublist s.contents n).mem hx)

theorem LinesOK_insertIdx_state {s : CodeArea} (h : LinesOK s) {l : Line}
    (hl : NoNL l) (n : Nat) :
    LinesOK { s with contents := List.insertIdx n l s.contents } := by
  intro x hx
  rcases mem_insertIdx_gen n s.contents hx with rfl | hx
  · exact hl
  · exact h x hx

/-! ## Invariant transport helpers -/

theorem Pre_update_cursor {s : CodeArea} (h : Pre s) {x : Int × Int}
    (h1 : 0 ≤ x.1) (h2 : 0 ≤ x.2) : Pre { s with cursor := x } :=
  ⟨h1, h2, h.2.2.1, fun p hp => h.2.2.2.1 p hp, h.2.2.2.2⟩

theorem Pre_update_clipboard {s : CodeArea} (h : Pre s) (x : Line) :
    Pre { s with clipboard := x } :=
  ⟨h.1, h.2.1, h.2.2.1, fun p hp => h.2.2.2.1 p hp, h.2.2.2.2⟩

theorem Pre_rowSet {s : CodeArea} (h : Pre s) {l : Line} (hl : NoNL l)
    (i : Int) : Pre (rowSet s i l) :=
  ⟨h.1, h.2.1, LinesOK_rowSet h.2.2.1 hl i,
    fun p hp => h.2.2.2.1 p hp, h.2.2.2.2⟩

/-! ## Invariant preservation, operation by operation -/

theorem inv_move_cursor_right {s : CodeArea} (h : Pre s) :
    Inv (move_cursor_right s) := by
  unfold move_cursor_right
  have hr := h.1
  have hc := h.2.1
  dsimp only
  split
  · refine (fix_inv (Pre_update_cursor h ?_ ?_)).1
    · show (0 : Int) ≤ s.cursor.1 + 1
      omega
    · exact le_refl 0
  · split
    · refine (fix_inv (Pre_update_cursor h ?_ ?_)).1
      · show (0 : Int) ≤ s.cursor.1 + 1
        omega
      · exact le_refl 0
    · refine (fix_inv (Pre_update_cursor h ?_ ?_)).1
      · exact hr
      · show (0 : Int) ≤ s.cursor.2 + 1
        omega

theorem inv_move_cursor_down {s : CodeArea} (h : Pre s) :
    Inv (move_cursor_down s) := by
  unfold move_cursor_down
  have hr := h.1
  have hc := h.2.1
  refine (fix_inv (Pre_update_cursor h ?_ ?_)).1
  · show (0 : Int) ≤ s.cursor.1 + 1
    omega
  · exact hc

theorem inv_delete {s : CodeArea} (h : Pre s) : Inv (delete s) := by
  unfold delete
  have h1 : Inv (fix s) := (fix_inv h).1
  generalize fix s = t at h1 ⊢
  have hp := Inv_Pre h1
  dsimp only
  split
  · refine (fix_inv ?_).1
    refine ⟨hp.1, hp.2.1, ?_, fun p h2 => hp.2.2.2.1 p h2, hp.2.2.2.2⟩
    refine LinesOK_eraseIdx_state ?_ _
    exact LinesOK_rowSet hp.2.2.1
      (NoNL_append (NoNL_rowGet hp.2.2.1 _) (NoNL_rowGet hp.2.2.1 _)) _
  · split
    · refine (fix_inv ?_).1
      exact Pre_rowSet hp (NoNL_eraseIdx (NoNL_rowGet hp.2.2.1 _) _) _
    · exact (fix_inv hp).1

theorem inv_insertBase {s : CodeArea} (h : Pre s) (ch : Char) :
    Inv (insertBase s ch) := by
  unfold insertBase
  dsimp only
  split
  case isTrue =>
    refine (fix_inv ⟨?_, le_refl 0, ?_, ?_, ?_⟩).1
    · show (0 : Int) ≤ s.cursor.1 + 1
      have := h.1
      omega
    · intro l hl
      rcases mem_insertIdx_gen _ _ hl with rfl | hl2
      · exact NoNL_drop (NoNL_rowGet h.2.2.1 _) _
      · rcases List.mem_or_eq_of_mem_set hl2 with hl3 | rfl
        · exact h.2.2.1 l hl3
        · exact NoNL_take (NoNL_rowGet h.2.2.1 _) _
    · exact fun p hp => h.2.2.2.1 p hp
    · exact h.2.2.2.2
  case isFalse hch =>
    refine fix_inv_of_inv (inv_move_cursor_right ?_)
    exact Pre_rowSet h
      (NoNL_insertIdx (NoNL_rowGet h.2.2.1 _) hch _) _

theorem pre_foldl_insertBase (cs : Line) :
    ∀ {s : CodeArea}, Pre s → Pre (cs.foldl insertBase s) := by
  induction cs with
  | nil => intro s h; exact h
  | cons c cs ih =>
    intro s h
    rw [List.foldl_cons]
    exact ih (Inv_Pre (inv_insertBase h c))

theorem inv_insert {s : CodeArea} (h : Pre s) (ch : Char) :
    Inv (insert s ch) := by
  unfold insert
  by_cases hc : ch = '\t'
  · rw [if_pos hc]
    have h1 : Pre (("    ".data).foldl insertBase s) :=
      pre_foldl_insertBase _ h
    have h2 : Inv (fix (("    ".data).foldl insertBase s)) := (fix_inv h1).1
    exact fix_inv_of_inv h2
  · rw [if_neg hc]
    exact inv_insertBase h ch

theorem pre_foldl_insert (cs : Line) :
    ∀ {s : CodeArea}, Pre s → Pre (cs.foldl insert s) := by
  induction cs with
  | nil => intro s h; exact h
  | cons c cs ih =>
    intro s h
    rw [List.foldl_cons]
    exact ih (Inv_Pre (inv_insert h c))

theorem inv_insert_str {s : CodeArea} (h : Pre s) (cs : Line) :
    Inv (insert_str s cs) := by
  unfold insert_str
  exact (fix_inv (pre_foldl_insert cs h)).1

theorem inv_paste {s : CodeArea} (h : Pre s) : Inv (paste s) := by
  unfold paste
  exact fix_inv_of_inv (inv_insert_str h _)

theorem inv_copy_line_down {s : CodeArea} (h : Pre s) :
    Inv (copy_line_down s) := by
  unfold copy_line_down
  refine fix_inv_of_inv (inv_move_cursor_down ?_)
  exact ⟨h.1, h.2.1,
    LinesOK_insertIdx_state h.2.2.1 (NoNL_rowGet h.2.2.1 _) _,
    fun p hp => h.2.2.2.1 p hp, h.2.2.2.2⟩

theorem cutStep_fst (tr tc : Int) (p : CodeArea × Line) :
    (cutStep tr tc p).1 = delete p.1 := by
  unfold cutStep
  dsimp only
  split <;> rfl

theorem pre_iterate_cutStep (tr tc : Int) :
    ∀ (n : Nat) (p : CodeArea × Line), Pre p.1 →
      Pre ((cutStep tr tc)^[n] p).1 := by
  intro n
  induction n with
  | zero => intro p h; exact h
  | succ n ih =>
    intro p h
    rw [Function.iterate_succ_apply]
    refine ih _ ?_
    rw [cutStep_fst]
    exact Inv_Pre (inv_delete h)

theorem inv_cut_branch {t0 : CodeArea} (tr tc : Int) (n : Nat)
    (h0 : Pre t0) :
    Inv (fix { ((cutStep tr tc)^[n] (t0, [])).1 with
      clipboard := ((cutStep tr tc)^[n] (t0, [])).2 }) := by
  have hP : Pre ((cutStep tr tc)^[n] (t0, [])).1 :=
    pre_iterate_cutStep tr tc n (t0, []) h0
  exact (fix_inv (Pre_update_clipboard hP _)).1

theorem inv_cut {s : CodeArea} (h : Pre s) : Inv (cut s) := by
  unfold cut
  have h1 : Inv (fix s) := (fix_inv h).1
  generalize fix s = t at h1 ⊢
  have hp := Inv_Pre h1
  dsimp only
  rcases hm : t.selection_marker with _ | ⟨mrow, mcol⟩
  · dsimp only
    split
    · refine (fix_inv ⟨?_, le_refl 0, ?_, ?_, ?_⟩).1
      · exact hp.1
      · intro l hl
        exact hp.2.2.1 l ((List.eraseIdx_sublist _ _).mem hl)
      · exact fun p hpp =>
          Option.noConfusion (show (none : Option (Int × Int)) = some p from hpp)
      · exact hp.2.2.2.2
    · exact (fix_inv hp).1
  · dsimp only
    rcases hp.2.2.2.1 (mrow, mcol) hm with ⟨hm1, hm2⟩
    have hr := hp.1
    have hc := hp.2.1
    have hlines : LinesOK t := hp.2.2.1
    have hcmt : NoNL t.commentStr := hp.2.2.2.2
    split
    · exact h1
    · split
      · exact inv_cut_branch _ _ _ ⟨hm1, hm2, hlines,
          fun p hpp => by cases Option.some.inj hpp; exact ⟨hm1, hm2⟩, hcmt⟩
      · split
        · exact inv_cut_branch _ _ _ ⟨hr, hc, hlines,
            fun p hpp => by cases Option.some.inj hpp; exact ⟨hm1, hm2⟩, hcmt⟩
        · split
          · exact inv_cut_branch _ _ _ ⟨hm1, hm2, hlines,
              fun p hpp => by cases Option.some.inj hpp; exact ⟨hm1, hm2⟩, hcmt⟩
          · exact inv_cut_branch _ _ _ ⟨hr, hc, hlines,
              fun p hpp => by cases Option.some.inj hpp; exact ⟨hm1, hm2⟩, hcmt⟩

theorem inv_copy {s : CodeArea} (h : Pre s) : Inv (copy s) := by
  unfold copy
  dsimp only
  split
  · have h1 := inv_cut h
    have h2 := inv_paste (Inv_Pre h1)
    refine (fix_inv (Pre_update_cursor (Inv_Pre h2) ?_ ?_)).1
    · exact h.1
    · exact h.2.1
  · exact (fix_inv (Pre_update_clipboard h _)).1

/-- Branch characterization of `comment_current_line`: comment when the line
is shorter than the marker or does not begin with it, otherwise uncomment. -/
theorem comment_current_line_eq (s : CodeArea) :
    comment_current_line s =
      if (rowGet { s with cursor := (s.cursor.1, 0) } s.cursor.1).length <
            s.commentStr.length ∨
          ¬((rowGet { s with cursor := (s.cursor.1, 0) } s.cursor.1).take
              s.commentStr.length = s.commentStr) then
        fix { insert_str { s with cursor := (s.cursor.1, 0) } s.commentStr with
          cursor := (s.cursor.1, s.cursor.2 + (s.commentStr.length : Int)) }
      else
        fix { modifyRow { s with cursor := (s.cursor.1, 0) } s.cursor.1
            (fun l => l.drop s.commentStr.length) with
          cursor :=
            if s.cursor.2 ≤ (s.commentStr.length : Int) then (s.cursor.1, 0)
            else (s.cursor.1, s.cursor.2 - (s.commentStr.length : Int)) } := by
  unfold comment_current_line
  dsimp only
  by_cases hA : (rowGet { s with cursor := (s.cursor.1, 0) } s.cursor.1).length
      < s.commentStr.length
  · rw [if_pos hA, if_pos rfl, if_pos (Or.inl hA)]
  · rw [if_neg hA]
    by_cases hB : (rowGet { s with cursor := (s.cursor.1, 0) } s.cursor.1).take
        s.commentStr.length = s.commentStr
    · rw [if_pos hB, if_neg (show ¬(false = true) by simp),
        if_neg (fun hor => Or.elim hor (fun ha => hA ha) (fun hnb => hnb hB))]
    · rw [if_neg hB, if_pos rfl, if_pos (Or.inr hB)]

theorem inv_comment_current_line {s : CodeArea} (h : Pre s) :
    Inv (comment_current_line s) := by
  rw [comment_current_line_eq]
  have hr := h.1
  have hc := h.2.1
  have hs1 : Pre { s with cursor := (s.cursor.1, 0) } :=
    Pre_update_cursor h hr (le_refl 0)
  split
  · have h2 : Inv (insert_str { s with cursor := (s.cursor.1, 0) }
        s.commentStr) := inv_insert_str hs1 _
    refine (fix_inv (Pre_update_cursor (Inv_Pre h2) ?_ ?_)).1
    · exact hr
    · show (0 : Int) ≤ s.cursor.2 + (s.commentStr.length : Int)
      omega
  · refine (fix_inv (Pre_update_cursor ?_ ?_ ?_)).1
    · exact Pre_rowSet hs1 (NoNL_drop (NoNL_rowGet hs1.2.2.1 _) _) _
    · split
      · exact hr
      · exact hr
    · split
      · exact le_refl 0
      · show (0 : Int) ≤ s.cursor.2 - (s.commentStr.length : Int)
        omega

theorem pre_comment_loop {b : Int} (hb : 0 ≤ b) :
    ∀ (ks : List Nat) {s : CodeArea}, Pre s →
      Pre (ks.foldl
        (fun s (k : Nat) =>
          comment_current_line { s with cursor := (b + (k : Int), 0) })
        s) := by
  intro ks
  induction ks with
  | nil => intro s h; exact h
  | cons k ks ih =>
    intro s h
    rw [List.foldl_cons]
    refine ih ?_
    refine Inv_Pre (inv_comment_current_line (Pre_update_cursor h ?_ ?_))
    · show (0 : Int) ≤ b + (k : Int)
      omega
    · exact le_refl 0

theorem inv_comment_selection {s : CodeArea} (h : Pre s) :
    Inv (comment_selection s) := by
  unfold comment_selection
  dsimp only
  rcases hm : s.selection_marker with _ | ⟨mrow, mcol⟩
  · dsimp only
    exact (fix_inv h).1
  · dsimp only
    rcases h.2.2.2.1 (mrow, mcol) hm with ⟨hm1, -⟩
    have hb : 0 ≤ min mrow s.cursor.1 := le_min hm1 h.1
    have hL := pre_comment_loop hb
      (List.range (max mrow s.cursor.1 - min mrow s.cursor.1 + 1).toNat) h
    refine (fix_inv ⟨?_, ?_, ?_, ?_, ?_⟩).1
    · exact h.1
    · exact add_nonneg h.2.1 (Int.ofNat_nonneg _)
    · exact hL.2.2.1
    · exact fun p hpp => hL.2.2.2.1 p hpp
    · exact hL.2.2.2.2

theorem inv_move_cursor_home {s : CodeArea} (h : Inv s) :
    Inv (move_cursor_home s) := by
  obtain ⟨⟨h1, h2, h3, h4⟩, hlines, hm, hcm⟩ := h
  unfold move_cursor_home
  exact ⟨⟨h1, h2, le_refl 0, rowLen_nonneg _ _⟩, hlines,
    fun p hp => hm p hp, hcm⟩

theorem inv_move_cursor_end {s : CodeArea} (h : Inv s) :
    Inv (move_cursor_end s) := by
  obtain ⟨⟨h1, h2, h3, h4⟩, hlines, hm, hcm⟩ := h
  unfold move_cursor_end
  exact ⟨⟨h1, h2, rowLen_nonneg _ _, le_refl _⟩, hlines,
    fun p hp => hm p hp, hcm⟩

theorem inv_move_cursor_left {s : CodeArea} (h : Inv s) :
    Inv (move_cursor_left s) := by
  unfold move_cursor_left
  dsimp only
  split
  · exact h
  next hne =>
    split
    next hc0 =>
      refine (fix_inv (Pre_update_cursor (Inv_Pre h) ?_ ?_)).1
      · show (0 : Int) ≤ s.cursor.1 - 1
        have h1 := h.1.1
        have h0 : s.cursor.1 ≠ 0 := fun h0 =>
          hne (by rw [← Prod.mk.eta (p := s.cursor), h0, hc0])
        omega
      · exact rowLen_nonneg _ _
    next hc0 =>
      refine (fix_inv (Pre_update_cursor (Inv_Pre h) ?_ ?_)).1
      · exact h.1.1
      · show (0 : Int) ≤ s.cursor.2 - 1
        have h3 := h.1.2.2.1
        omega

theorem inv_move_cursor_up {s : CodeArea} (h : Inv s) :
    Inv (move_cursor_up s) := by
  unfold move_cursor_up
  dsimp only
  split
  · exact h
  next hne =>
    refine (fix_inv (Pre_update_cursor (Inv_Pre h) ?_ ?_)).1
    · show (0 : Int) ≤ s.cursor.1 - 1
      have h1 := h.1.1
      omega
    · exact h.1.2.2.1

theorem inv_backspace {s : CodeArea} (h : Inv s) : Inv (backspace s) := by
  unfold backspace
  split
  · exact h
  · exact inv_delete (Inv_Pre (inv_move_cursor_left h))

theorem inv_iterate_up (n : Nat) :
    ∀ {s : CodeArea}, Inv s → Inv (move_cursor_up^[n] s) := by
  induction n with
  | zero => intro s h; exact h
  | succ n ih =>
    intro s h
    rw [Function.iterate_succ_apply]
    exact ih (inv_move_cursor_up h)

theorem inv_iterate_down (n : Nat) :
    ∀ {s : CodeArea}, Inv s → Inv (move_cursor_down^[n] s) := by
  induction n with
  | zero => intro s h; exact h
  | succ n ih =>
    intro s h
    rw [Function.iterate_succ_apply]
    exact ih (inv_move_cursor_down (Inv_Pre h))

theorem inv_move_page_up {s : CodeArea} (h : Inv s) : Inv (move_page_up s) :=
  inv_iterate_up 8 h

theorem inv_move_page_down {s : CodeArea} (h : Inv s) :
    Inv (move_page_down s) :=
  inv_iterate_down 8 h

theorem inv_continue_selection {s : CodeArea} (h : Inv s) :
    Inv (continue_selection s) := by
  unfold continue_selection
  split
  · exact h
  · refine ⟨⟨h.1.1, h.1.2.1, h.1.2.2.1, h.1.2.2.2⟩, h.2.1, ?_, h.2.2.2⟩
    intro p hp
    have h2 : s.cursor = p := Option.some.inj hp
    rw [← h2]
    exact ⟨h.1.1, h.1.2.2.1⟩

theorem inv_forget_selection {s : CodeArea} (h : Inv s) :
    Inv (forget_selection s) := by
  unfold forget_selection
  refine ⟨⟨h.1.1, h.1.2.1, h.1.2.2.1, h.1.2.2.2⟩, h.2.1, ?_, h.2.2.2⟩
  intro p hp
  exact Option.noConfusion (show (none : Option (Int × Int)) = some p from hp)

theorem inv_move_line_up {s : CodeArea} (h : Inv s) :
    Inv (move_line_up s) := by
  obtain ⟨⟨h1, h2, h3, h4⟩, hlines, hm, hcm⟩ := h
  have hlen : (0 : Int) < (s.contents.length : Int) := by omega
  unfold move_line_up
  dsimp only
  by_cases hrow : s.cursor.1 = 0
  · rw [hrow]
    have e1 : rowGet s ((0 : Int) - 1) = rowGet s 0 :=
      rowGet_congr s (by unfold clampIdx; norm_num)
    rw [e1, rowSet_rowGet_self]
    have e2 : rowSet s ((0 : Int) - 1) (rowGet s 0) = s := by
      rw [rowSet_congr s (rowGet s 0)
        (show clampIdx s ((0 : Int) - 1) = clampIdx s 0 by
          unfold clampIdx; norm_num)]
      exact rowSet_rowGet_self s 0
    rw [e2]
    have e3 : max ((0 : Int) - 1) 0 = 0 := by norm_num
    rw [e3]
    rw [hrow] at h4
    exact ⟨⟨le_refl 0, hlen, h3, h4⟩, hlines, fun p hp => hm p hp, hcm⟩
  · have c1 : clampIdx s s.cursor.1 = s.cursor.1.toNat := clampIdx_eq s h1 h2
    have c2 : clampIdx s (s.cursor.1 - 1) = (s.cursor.1 - 1).toNat :=
      clampIdx_eq s (by omega) (by omega)
    set t1 := rowSet s s.cursor.1 (rowGet s (s.cursor.1 - 1)) with ht1
    set t2 := rowSet t1 (s.cursor.1 - 1) (rowGet s s.cursor.1) with ht2
    have hlen1 : t1.contents.length = s.contents.length := rowSet_length _ _ _
    have hlen2 : t2.contents.length = s.contents.length := by
      rw [ht2, rowSet_length, hlen1]
    have hmax : max (s.cursor.1 - 1) 0 = s.cursor.1 - 1 :=
      max_eq_left (by omega)
    rw [hmax]
    have hrg : rowGet t2 (s.cursor.1 - 1) = rowGet s s.cursor.1 := by
      rw [ht2]
      exact rowGet_rowSet_self _ (by omega) (by rw [hlen1]; omega)
    have hL1 : LinesOK t1 := by
      rw [ht1]
      exact LinesOK_rowSet hlines (NoNL_rowGet hlines _) _
    have hL2 : LinesOK t2 := by
      rw [ht2]
      exact LinesOK_rowSet hL1 (NoNL_rowGet hlines _) _
    refine ⟨⟨?_, ?_, h3, ?_⟩, ?_, fun p hp => hm p hp, hcm⟩
    · show (0 : Int) ≤ s.cursor.1 - 1
      omega
    · show s.cursor.1 - 1 < (t2.contents.length : Int)
      rw [hlen2]
      omega
    · show s.cursor.2 ≤ rowLen t2 (s.cursor.1 - 1)
      unfold rowLen
      rw [hrg]
      exact h4
    · exact fun l hx => hL2 l hx

theorem inv_move_line_down {s : CodeArea} (h : Inv s) :
    Inv (move_line_down s) := by
  obtain ⟨⟨h1, h2, h3, h4⟩, hlines, hm, hcm⟩ := h
  have hlen : (0 : Int) < (s.contents.length : Int) := by omega
  unfold move_line_down
  dsimp only
  by_cases hrow : s.cursor.1 = (s.contents.length : Int) - 1
  · have e1 : rowGet s (s.cursor.1 + 1) = rowGet s s.cursor.1 :=
      rowGet_congr s (by unfold clampIdx; omega)
    rw [e1, rowSet_rowGet_self]
    have e2 : rowSet s (s.cursor.1 + 1) (rowGet s s.cursor.1) = s := by
      rw [rowSet_congr s (rowGet s s.cursor.1)
        (show clampIdx s (s.cursor.1 + 1) = clampIdx s s.cursor.1 by
          unfold clampIdx; omega)]
      exact rowSet_rowGet_self s _
    rw [e2]
    have e3 : min (s.cursor.1 + 1) ((s.contents.length : Int) - 1) =
        s.cursor.1 := by omega
    rw [e3]
    exact ⟨⟨h1, h2, h3, h4⟩, hlines, fun p hp => hm p hp, hcm⟩
  · have hr1 : s.cursor.1 + 1 ≤ (s.contents.length : Int) - 1 := by omega
    have c1 : clampIdx s s.cursor.1 = s.cursor.1.toNat := clampIdx_eq s h1 h2
    have c3 : clampIdx s (s.cursor.1 + 1) = (s.cursor.1 + 1).toNat :=
      clampIdx_eq s (by omega) (by omega)
    set t1 := rowSet s s.cursor.1 (rowGet s (s.cursor.1 + 1)) with ht1
    set t2 := rowSet t1 (s.cursor.1 + 1) (rowGet s s.cursor.1) with ht2
    have hlen1 : t1.contents.length = s.contents.length := rowSet_length _ _ _
    have hlen2 : t2.contents.length = s.contents.length := by
      rw [ht2, rowSet_length, hlen1]
    have hrg : rowGet t2 (s.cursor.1 + 1) = rowGet s s.cursor.1 := by
      rw [ht2]
      exact rowGet_rowSet_self _ (by omega) (by rw [hlen1]; omega)
    have hL1 : LinesOK t1 := by
      rw [ht1]
      exact LinesOK_rowSet hlines (NoNL_rowGet hlines _) _
    have hL2 : LinesOK t2 := by
      rw [ht2]
      exact LinesOK_rowSet hL1 (NoNL_rowGet hlines _) _
    have e4 : min (s.cursor.1 + 1) ((t2.contents.length : Int) - 1) =
        s.cursor.1 + 1 := by
      rw [hlen2]
      omega
    rw [e4]
    refine ⟨⟨?_, ?_, h3, ?_⟩, ?_, fun p hp => hm p hp, hcm⟩
    · show (0 : Int) ≤ s.cursor.1 + 1
      omega
    · show s.cursor.1 + 1 < (t2.contents.length : Int)
      rw [hlen2]
      omega
    · show s.cursor.2 ≤ rowLen t2 (s.cursor.1 + 1)
      unfold rowLen
      rw [hrg]
      exact h4
    · exact fun l hx => hL2 l hx


theorem inv_applyOp {s : CodeArea} (h : Inv s) (o : Op) :
    Inv (applyOp o s) := by
  cases o with
  | ins ch => exact inv_insert (Inv_Pre h) ch
  | insStr str => exact inv_insert_str (Inv_Pre h) str
  | del => exact inv_delete (Inv_Pre h)
  | back => exact inv_backspace h
  | cutOp => exact inv_cut (Inv_Pre h)
  | copyOp => exact inv_copy (Inv_Pre h)
  | pasteOp => exact inv_paste (Inv_Pre h)
  | dupLineDown => exact inv_copy_line_down (Inv_Pre h)
  | cmtLine => exact inv_comment_current_line (Inv_Pre h)
  | cmtSel => exact inv_comment_selection (Inv_Pre h)
  | lineUp => exact inv_move_line_up h
  | lineDown => exact inv_move_line_down h
  | home => exact inv_move_cursor_home h
  | toEnd => exact inv_move_cursor_end h
  | left => exact inv_move_cursor_left h
  | right => exact inv_move_cursor_right (Inv_Pre h)
  | up => exact inv_move_cursor_up h
  | down => exact inv_move_cursor_down (Inv_Pre h)
  | pageUp => exact inv_move_page_up h
  | pageDown => exact inv_move_page_down h
  | selOn => exact inv_continue_selection h
  | selOff => exact inv_forget_selection h

theorem inv_new : Inv new := by decide

theorem inv_reachable {s : CodeArea} (h : Reachable s) : Inv s := by
  induction h with
  | base => exact inv_new
  | step o _ ih => exact inv_applyOp ih o

/-- Claim C1: for every state reachable from the initial editor state by any
sequence of public edit and cursor operations, the buffer contains at least
one line, and the cursor satisfies `0 ≤ row < line_count()` and
`0 ≤ col ≤ length of line row`. -/
theorem C1_reachable_invariant (s : CodeArea) (h : Reachable s) :
    1 ≤ s.contents.length ∧
      0 ≤ s.cursor.1 ∧ s.cursor.1 < (s.contents.length : Int) ∧
      0 ≤ s.cursor.2 ∧ s.cursor.2 ≤ rowLen s s.cursor.1 := by
  obtain ⟨⟨h1, h2, h3, h4⟩, -⟩ := inv_reachable h
  refine ⟨by omega, h1, h2, h3, h4⟩

/-- Witness for C1 at the initial state. -/
theorem C1_witness :
    1 ≤ new.contents.length ∧
      0 ≤ new.cursor.1 ∧ new.cursor.1 < (new.contents.length : Int) ∧
      0 ≤ new.cursor.2 ∧ new.cursor.2 ≤ rowLen new new.cursor.1 :=
  C1_reachable_invariant new Reachable.base

/-! ## The repair property after each repairing operation -/

theorem repaired_fix (s : CodeArea) : RepairedBuffer (fix s) := by
  have h := fix_post s
  exact ⟨h.1, h.2.1, h.2.2⟩

theorem repaired_delete (s : CodeArea) : RepairedBuffer (delete s) := by
  unfold delete
  exact repaired_fix _

theorem repaired_insert (s : CodeArea) (ch : Char) :
    RepairedBuffer (insert s ch) := by
  unfold insert
  split
  · exact repaired_fix _
  · unfold insertBase
    dsimp only
    split
    · exact repaired_fix _
    · exact repaired_fix _

theorem repaired_insert_str (s : CodeArea) (str : Line) :
    RepairedBuffer (insert_str s str) := by
  unfold insert_str
  exact repaired_fix _

theorem repaired_cut (s : CodeArea) : RepairedBuffer (cut s) := by
  unfold cut
  dsimp only
  split
  · split
    · exact repaired_fix _
    · exact repaired_fix _
  · split
    · exact repaired_fix _
    · exact repaired_fix _

theorem repaired_copy (s : CodeArea) : RepairedBuffer (copy s) := by
  unfold copy
  dsimp only
  exact repaired_fix _

theorem repaired_paste (s : CodeArea) : RepairedBuffer (paste s) := by
  unfold paste
  exact repaired_fix _

theorem repaired_copy_line_down (s : CodeArea) :
    RepairedBuffer (copy_line_down s) := by
  unfold copy_line_down
  dsimp only
  exact repaired_fix _

theorem repaired_comment_line (s : CodeArea) :
    RepairedBuffer (comment_current_line s) := by
  rw [comment_current_line_eq]
  split
  · exact repaired_fix _
  · exact repaired_fix _

theorem repaired_comment_sel (s : CodeArea) :
    RepairedBuffer (comment_selection s) := by
  unfold comment_selection
  dsimp only
  exact repaired_fix _

theorem repaired_right (s : CodeArea) :
    RepairedBuffer (move_cursor_right s) := by
  unfold move_cursor_right
  dsimp only
  exact repaired_fix _

theorem repaired_down (s : CodeArea) :
    RepairedBuffer (move_cursor_down s) := by
  unfold move_cursor_down
  exact repaired_fix _

theorem repaired_left (s : CodeArea) (h : s.cursor ≠ (0, 0)) :
    RepairedBuffer (move_cursor_left s) := by
  unfold move_cursor_left
  rw [if_neg h]
  dsimp only
  exact repaired_fix _

theorem repaired_up (s : CodeArea) (h : s.cursor.1 ≠ 0) :
    RepairedBuffer (move_cursor_up s) := by
  unfold move_cursor_up
  rw [if_neg h]
  dsimp only
  exact repaired_fix _

theorem repaired_back (s : CodeArea) (h : s.cursor ≠ (0, 0)) :
    RepairedBuffer (backspace s) := by
  unfold backspace
  rw [if_neg h]
  exact repaired_delete _

/-- With no selection, copy() only writes a line break followed by the
cursor line into the clipboard (on a normal state, where the repair step is
the identity). -/
theorem copy_noSel_eq {s : CodeArea} (hn : Normal s)
    (hm : s.selection_marker = none) :
    copy s = { s with clipboard := '\n' :: rowGet s s.cursor.1 } := by
  unfold copy
  dsimp only
  rw [hm]
  rw [if_neg (by simp)]
  apply fix_eq_self
  exact ⟨hn.1, hn.2.1, hn.2.2⟩

/-! ## Claims C2, C3, C4, C6, C9, C10 -/

/-- Claim C2 counterexample: a reachable editor state (insert 'a'; copy;
continue_selection) whose anchor equals the cursor, on which copy() changes
the buffer contents — it cuts (a no-op) and then pastes the old clipboard. -/
theorem C2_cex :
    (continue_selection (copy (insert new 'a'))).selection_marker =
        some (continue_selection (copy (insert new 'a'))).cursor ∧
      (copy (continue_selection (copy (insert new 'a')))).contents ≠
        (continue_selection (copy (insert new 'a'))).contents := by decide

/-- Claim C2 (amended): when the selection anchor equals the cursor, cut()
is a no-op on every normal state — buffer, cursor and clipboard are all
unchanged.  copy() is NOT a no-op there: it runs cut-then-paste and so
inserts the current clipboard at the cursor (see the counterexample). -/
theorem C2_amended (s : CodeArea) (hn : Normal s)
    (hm : s.selection_marker = some s.cursor) : cut s = s := by
  have hm2 : s.selection_marker = some (s.cursor.1, s.cursor.2) := by
    rw [Prod.mk.eta]
    exact hm
  unfold cut
  dsimp only
  rw [fix_eq_self hn, hm2]
  dsimp only
  rw [if_pos ⟨rfl, rfl⟩]

/-- Witness for C2 on a concrete normal state with anchor equal to cursor. -/
theorem C2_witness :
    cut { aState with selection_marker := some (0, 1) } =
      { aState with selection_marker := some (0, 1) } :=
  C2_amended _ (by decide) (by decide)

/-- Claim C3 counterexample: with no selection, copy() does not set the
clipboard to the bare text of the cursor line — a line break is prepended. -/
theorem C3_cex :
    (copy { new with contents := [['a'], []], cursor := (0, 0) }).clipboard ≠
      rowGet { new with contents := [['a'], []], cursor := (0, 0) } 0 := by
  decide

/-- Claim C3 (amended): on a normal state with no selection, copy() sets the
clipboard to a line break followed by the text of the cursor line, and
leaves buffer and cursor unchanged. -/
theorem C3_amended (s : CodeArea) (hn : Normal s)
    (hm : s.selection_marker = none) :
    (copy s).clipboard = '\n' :: rowGet s s.cursor.1 ∧
      (copy s).contents = s.contents ∧ (copy s).cursor = s.cursor := by
  rw [copy_noSel_eq hn hm]
  exact ⟨rfl, rfl, rfl⟩

/-- Witness for C3 on a concrete state. -/
theorem C3_witness :
    (copy aState).clipboard = '\n' :: rowGet aState aState.cursor.1 ∧
      (copy aState).contents = aState.contents ∧
      (copy aState).cursor = aState.cursor :=
  C3_amended aState (by decide) (by decide)

/-- Claim C4 counterexample: starting from buffer ["hello", "world", ""]
with cursor (0,0), five delete() calls do NOT leave ["world", ""] — the five
deletions only consume the characters of "hello". -/
theorem C4_cex :
    (delete^[5] c4state).contents ≠ ["world".data, []] := by decide

/-- Claim C4 (amended): five delete() calls from ["hello", "world", ""] at
(0,0) yield ["", "world", ""] with cursor (0,0); the join with "world" is the
sixth call, after which the buffer is ["world", ""] with cursor (0,0). -/
theorem C4_amended :
    (delete^[5] c4state).contents = [[], "world".data, []] ∧
      (delete^[5] c4state).cursor = (0, 0) ∧
      (delete^[6] c4state).contents = ["world".data, []] ∧
      (delete^[6] c4state).cursor = (0, 0) := by decide

/-- Claim C6 counterexample: copy() then paste() with the cursor at its
pre-copy position (copy already leaves it there) does not restore the
buffer — paste inserts the copied line again. -/
theorem C6_cex :
    (copy { new with contents := [['a'], []], cursor := (0, 0) }).cursor =
        ({ new with contents := [['a'], []], cursor := (0, 0) } :
          CodeArea).cursor ∧
      (paste (copy { new with contents := [['a'], []], cursor := (0, 0) })).contents ≠
        [['a'], []] := by decide

/-- Claim C6 (amended): it is copy() alone that leaves the buffer unchanged
(shown here for normal states with no selection, where copy only writes the
clipboard); the subsequent paste() inserts the clipboard at the cursor, so
the copy-then-paste round trip does not preserve the buffer. -/
theorem C6_amended (s : CodeArea) (hn : Normal s)
    (hm : s.selection_marker = none) :
    (copy s).contents = s.contents ∧ (copy s).cursor = s.cursor := by
  rw [copy_noSel_eq hn hm]
  exact ⟨rfl, rfl⟩

/-- Witness for C6 on a concrete state. -/
theorem C6_witness :
    (copy c6state).contents = c6state.contents ∧
      (copy c6state).cursor = c6state.cursor :=
  C6_amended c6state (by decide) (by decide)

/-- Claim C9 counterexample: open_file on a missing file does not produce a
single empty line — the fresh editor keeps its two empty lines. -/
theorem C9_cex : (open_file new "missing.txt" none).contents ≠ [[]] := by
  decide

/-- Claim C9 (amended): opening a missing or unreadable file records the
filename and otherwise leaves the editor unchanged, surfacing no error; from
the fresh editor the buffer is its default two empty lines (not one). -/
theorem C9_amended (s : CodeArea) (file : String) :
    open_file s file none = { s with filename := file } ∧
      (open_file new file none).contents = [[], []] :=
  ⟨rfl, rfl⟩

/-- Claim C10 counterexample: move_cursor_home performs no repair, so after
the reachable sequence insert 'a'; move_line_down; move_cursor_home the last
line is "a", not the empty string. -/
theorem C10_cex :
    ¬ ((move_cursor_home (move_line_down (insert new 'a'))).contents.getLast?
      = some []) := by decide

/-- Claim C10 (amended): after insert, insert_str, delete, cut, copy, paste,
copy_line_down, comment_current_line, comment_selection, move_cursor_right
and move_cursor_down — and after backspace and move_cursor_left when the
cursor is not at the origin, and move_cursor_up when not on the first row —
the buffer is nonempty, its last line is exactly the empty string, and no
line contains an embedded line-break character.  move_cursor_home and
move_cursor_end never invoke the repair step and lack this property (see the
counterexample). -/
theorem C10_amended (s : CodeArea) (ch : Char) (str : Line) :
    RepairedBuffer (insert s ch) ∧ RepairedBuffer (insert_str s str) ∧
      RepairedBuffer (delete s) ∧
      (s.cursor ≠ (0, 0) → RepairedBuffer (backspace s)) ∧
      RepairedBuffer (cut s) ∧ RepairedBuffer (copy s) ∧
      RepairedBuffer (paste s) ∧ RepairedBuffer (copy_line_down s) ∧
      RepairedBuffer (comment_current_line s) ∧
      RepairedBuffer (comment_selection s) ∧
      (s.cursor ≠ (0, 0) → RepairedBuffer (move_cursor_left s)) ∧
      RepairedBuffer (move_cursor_right s) ∧
      (s.cursor.1 ≠ 0 → RepairedBuffer (move_cursor_up s)) ∧
      RepairedBuffer (move_cursor_down s) :=
  ⟨repaired_insert s ch, repaired_insert_str s str, repaired_delete s,
    fun h1 => repaired_back s h1, repaired_cut s, repaired_copy s,
    repaired_paste s, repaired_copy_line_down s, repaired_comment_line s,
    repaired_comment_sel s, fun h1 => repaired_left s h1, repaired_right s,
    fun h2 => repaired_up s h2, repaired_down s⟩

/-! ## The padding half of the repair step -/

theorem normPad_cursor (s : CodeArea) : (normPad s).cursor = s.cursor := by
  unfold normPad
  split <;> rfl

theorem normPad_marker (s : CodeArea) :
    (normPad s).selection_marker = s.selection_marker := by
  unfold normPad
  split <;> rfl

theorem normPad_commentStr (s : CodeArea) :
    (normPad s).commentStr = s.commentStr := by
  unfold normPad
  split <;> rfl

theorem normPad_last (s : CodeArea) :
    (normPad s).contents.getLast? = some [] := by
  unfold normPad
  split
  next h => exact h
  next h => exact List.getLast?_concat _

theorem normPad_linesOK {s : CodeArea} (h : LinesOK s) :
    LinesOK (normPad s) := by
  unfold normPad
  split
  · exact h
  · intro l hl
    rcases List.mem_append.mp hl with hl | hl
    · exact h l hl
    · rw [List.mem_singleton.mp hl]
      exact NoNL_nil

theorem normPad_len (s : CodeArea) :
    s.contents.length ≤ (normPad s).contents.length := by
  unfold normPad
  split
  · exact le_refl _
  · simp

theorem rowGet_normPad {s : CodeArea} {i : Int} (h0 : 0 ≤ i)
    (h1 : i < (s.contents.length : Int)) :
    rowGet (normPad s) i = rowGet s i := by
  unfold normPad
  split
  · rfl
  · exact rowGet_append s [] h0 h1

theorem normPad_normal {s : CodeArea} (hc : CursorOK s) (hl : LinesOK s) :
    Normal (normPad s) := by
  obtain ⟨h1, h2, h3, h4⟩ := hc
  have hcu := normPad_cursor s
  refine ⟨⟨?_, ?_, ?_, ?_⟩, normPad_linesOK hl, normPad_last s⟩
  · rw [hcu]
    exact h1
  · rw [hcu]
    have := normPad_len s
    omega
  · rw [hcu]
    exact h3
  · rw [hcu]
    show s.cursor.2 ≤ rowLen (normPad s) s.cursor.1
    unfold rowLen
    rw [rowGet_normPad h1 h2]
    exact h4

theorem fix_newline_normPad {s : CodeArea} (h : LinesOK s) :
    fix_newline s = normPad s := by
  rw [fix_newline_eq, map_stripNL_eq h]
  unfold normPad
  rfl

theorem fix_eq_normPad {s : CodeArea} (hc : CursorOK s) (hl : LinesOK s) :
    fix s = normPad s := by
  unfold fix
  rw [fix_cursor_eq_self hc, fix_newline_normPad hl]

/-! ## List lemmas for insertion -/

theorem take_insertIdx_succ {α : Type} (a : α) :
    ∀ (n : Nat) (l : List α), n ≤ l.length →
      (List.insertIdx n a l).take (n + 1) = l.take n ++ [a] := by
  intro n
  induction n with
  | zero =>
    intro l _
    rfl
  | succ n ih =>
    intro l h
    cases l with
    | nil => simp at h
    | cons x xs =>
      show x :: (List.insertIdx n a xs).take (n + 1) =
        x :: (xs.take n ++ [a])
      rw [ih xs (by simpa using h)]

theorem drop_insertIdx_succ {α : Type} (a : α) :
    ∀ (n : Nat) (l : List α), n ≤ l.length →
      (List.insertIdx n a l).drop (n + 1) = l.drop n := by
  intro n
  induction n with
  | zero =>
    intro l _
    rfl
  | succ n ih =>
    intro l h
    cases l with
    | nil => simp at h
    | cons x xs =>
      show (List.insertIdx n a xs).drop (n + 1) = xs.drop n
      exact ih xs (by simpa using h)

theorem list_getLast?_set {α : Type} (c : List α) (n : Nat) (x : α)
    (h : n < c.length) :
    (c.set n x).getLast? =
      if n = c.length - 1 then some x else c.getLast? := by
  rw [List.getLast?_eq_getElem?, List.getLast?_eq_getElem?, List.length_set]
  by_cases hn : n = c.length - 1
  · rw [if_pos hn]
    rw [← hn]
    exact List.getElem?_set_self h
  · rw [if_neg hn]
    exact List.getElem?_set_ne hn

/-! ## Observable effect of character insertion on normal states -/

/-- On a normal state, inserting a non-line-break character (the `other` arm
of `insert`) inserts it at the cursor column, advances the column by one,
and yields a normal state; the row, the comment marker and all other lines
are untouched. -/
theorem insertBase_obs {s : CodeArea} (hn : Normal s) {ch : Char}
    (hch : ch ≠ '\n') :
    Normal (insertBase s ch) ∧
      (insertBase s ch).cursor = (s.cursor.1, s.cursor.2 + 1) ∧
      rowGet (insertBase s ch) s.cursor.1 =
        List.insertIdx s.cursor.2.toNat ch (rowGet s s.cursor.1) ∧
      (insertBase s ch).commentStr = s.commentStr ∧
      s.contents.length ≤ (insertBase s ch).contents.length := by
  obtain ⟨⟨h1, h2, h3, h4⟩, hlines, hlast⟩ := hn
  have hcol : s.cursor.2.toNat ≤ (rowGet s s.cursor.1).length := by
    have h5 : s.cursor.2 ≤ ((rowGet s s.cursor.1).length : Int) := h4
    omega
  have hlen_new :
      (List.insertIdx s.cursor.2.toNat ch (rowGet s s.cursor.1)).length =
        (rowGet s s.cursor.1).length + 1 :=
    List.length_insertIdx _ _ hcol
  have hcV : CursorOK { rowSet s s.cursor.1
      (List.insertIdx s.cursor.2.toNat ch (rowGet s s.cursor.1)) with
        cursor := (s.cursor.1, s.cursor.2 + 1) } := by
    refine ⟨h1, ?_, ?_, ?_⟩
    · show s.cursor.1 < ((rowSet s s.cursor.1
        (List.insertIdx s.cursor.2.toNat ch (rowGet s s.cursor.1))).contents.length : Int)
      rw [rowSet_length]
      exact h2
    · show (0 : Int) ≤ s.cursor.2 + 1
      omega
    · show s.cursor.2 + 1 ≤ rowLen (rowSet s s.cursor.1
        (List.insertIdx s.cursor.2.toNat ch (rowGet s s.cursor.1))) s.cursor.1
      unfold rowLen
      rw [rowGet_rowSet_self _ h1 h2, hlen_new]
      have h5 : s.cursor.2 ≤ ((rowGet s s.cursor.1).length : Int) := h4
      push_cast
      omega
  have hlV : LinesOK { rowSet s s.cursor.1
      (List.insertIdx s.cursor.2.toNat ch (rowGet s s.cursor.1)) with
        cursor := (s.cursor.1, s.cursor.2 + 1) } :=
    LinesOK_rowSet hlines
      (NoNL_insertIdx (NoNL_rowGet hlines _) hch _) _
  have key : insertBase s ch =
      normPad { rowSet s s.cursor.1
        (List.insertIdx s.cursor.2.toNat ch (rowGet s s.cursor.1)) with
          cursor := (s.cursor.1, s.cursor.2 + 1) } := by
    unfold insertBase
    rw [if_neg hch]
    dsimp only
    unfold modifyRow
    dsimp only
    unfold move_cursor_right
    dsimp only
    have htc : (rowSet s s.cursor.1
        (List.insertIdx s.cursor.2.toNat ch (rowGet s s.cursor.1))).cursor =
        s.cursor := rowSet_cursor _ _ _
    rw [htc]
    have htlen : rowLen (rowSet s s.cursor.1
        (List.insertIdx s.cursor.2.toNat ch (rowGet s s.cursor.1)))
          s.cursor.1 = rowLen s s.cursor.1 + 1 := by
      unfold rowLen
      rw [rowGet_rowSet_self _ h1 h2, hlen_new]
      push_cast
      ring
    rw [htlen]
    rw [if_neg (by have := rowLen_nonneg s s.cursor.1; omega)]
    rw [if_neg (by have h5 := h4; omega)]
    rw [fix_eq_normPad hcV hlV]
    rw [fix_eq_self (normPad_normal hcV hlV)]
  refine ⟨?_, ?_, ?_, ?_, ?_⟩
  · rw [key]
    exact normPad_normal hcV hlV
  · rw [key, normPad_cursor]
  · rw [key]
    rw [rowGet_normPad h1 (by
      show s.cursor.1 < ((rowSet s s.cursor.1
        (List.insertIdx s.cursor.2.toNat ch (rowGet s s.cursor.1))).contents.length : Int)
      rw [rowSet_length]
      exact h2)]
    exact rowGet_rowSet_self _ h1 h2
  · rw [key, normPad_commentStr]
    rfl
  · rw [key]
    have h6 := normPad_len { rowSet s s.cursor.1
      (List.insertIdx s.cursor.2.toNat ch (rowGet s s.cursor.1)) with
        cursor := (s.cursor.1, s.cursor.2 + 1) }
    have h7 : ({ rowSet s s.cursor.1
        (List.insertIdx s.cursor.2.toNat ch (rowGet s s.cursor.1)) with
          cursor := (s.cursor.1, s.cursor.2 + 1) } : CodeArea).contents.length =
        s.contents.length := by
      show (rowSet s s.cursor.1
        (List.insertIdx s.cursor.2.toNat ch (rowGet s s.cursor.1))).contents.length =
          s.contents.length
      exact rowSet_length _ _ _
    rw [h7] at h6
    exact h6

/-- Folding a list of plain characters (no line break, no tab) through
`insert` on a normal state inserts them at the cursor, in order, advancing
the column by the length of the list. -/
theorem foldl_insert_obs (cs : Line) :
    ∀ {s : CodeArea}, Normal s → (∀ c ∈ cs, c ≠ '\n' ∧ c ≠ '\t') →
      Normal (cs.foldl insert s) ∧
        (cs.foldl insert s).cursor.1 = s.cursor.1 ∧
        (cs.foldl insert s).cursor.2 = s.cursor.2 + cs.length ∧
        rowGet (cs.foldl insert s) s.cursor.1 =
          (rowGet s s.cursor.1).take s.cursor.2.toNat ++ cs ++
            (rowGet s s.cursor.1).drop s.cursor.2.toNat ∧
        (cs.foldl insert s).commentStr = s.commentStr ∧
        s.contents.length ≤ (cs.foldl insert s).contents.length := by
  induction cs with
  | nil =>
    intro s hn _
    refine ⟨hn, rfl, by simp, ?_, rfl, le_refl _⟩
    show rowGet s s.cursor.1 = _
    rw [List.append_nil, List.take_append_drop]
  | cons c cs ih =>
    intro s hn hok
    have hc := hok c (List.mem_cons_self _ _)
    have hcs : ∀ x ∈ cs, x ≠ '\n' ∧ x ≠ '\t' :=
      fun x hx => hok x (List.mem_cons_of_mem _ hx)
    rw [List.foldl_cons]
    rw [show insert s c = insertBase s c from by
      unfold insert; rw [if_neg hc.2]]
    obtain ⟨hn1, hcur1, hrow1, hcmt1, hlen1⟩ := insertBase_obs hn hc.1
    obtain ⟨hN, hc1, hc2, hrow, hcmt, hlen⟩ := ih hn1 hcs
    have hcol0 : 0 ≤ s.cursor.2 := hn.1.2.2.1
    have hcolB : s.cursor.2 ≤ ((rowGet s s.cursor.1).length : Int) := hn.1.2.2.2
    have hs1c : (insertBase s c).cursor.1 = s.cursor.1 := by rw [hcur1]
    have hs2c : (insertBase s c).cursor.2 = s.cursor.2 + 1 := by rw [hcur1]
    refine ⟨hN, ?_, ?_, ?_, ?_, ?_⟩
    · rw [hc1, hs1c]
    · rw [hc2, hs2c, List.length_cons]
      push_cast
      ring
    · rw [hs1c] at hrow hc1
      rw [hrow]
      rw [hs2c] at *
      rw [hrow1]
      have htn : (s.cursor.2 + 1).toNat = s.cursor.2.toNat + 1 := by omega
      rw [htn]
      rw [take_insertIdx_succ c _ _ (by omega)]
      rw [drop_insertIdx_succ c _ _ (by omega)]
      simp [List.append_assoc]
    · rw [hcmt, hcmt1]
    · exact le_trans hlen1 hlen

/-- A cursor update does not affect the row accessor, which reads only the
contents. -/
theorem rowGet_setCursor (s : CodeArea) (p : Int × Int) (i : Int) :
    rowGet { s with cursor := p } i = rowGet s i := rfl

/-- Source `CodeArea::insert_str` on a normal state with plain characters:
the trailing repair step is the identity, so the observables are those of the
insertion fold. -/
theorem insert_str_obs {s : CodeArea} (hn : Normal s) {cs : Line}
    (hok : ∀ c ∈ cs, c ≠ '\n' ∧ c ≠ '\t') :
    Normal (insert_str s cs) ∧
      (insert_str s cs).cursor.1 = s.cursor.1 ∧
      (insert_str s cs).cursor.2 = s.cursor.2 + cs.length ∧
      rowGet (insert_str s cs) s.cursor.1 =
        (rowGet s s.cursor.1).take s.cursor.2.toNat ++ cs ++
          (rowGet s s.cursor.1).drop s.cursor.2.toNat ∧
      (insert_str s cs).commentStr = s.commentStr ∧
      s.contents.length ≤ (insert_str s cs).contents.length := by
  obtain ⟨hF, h1, h2, h3, h4, h5⟩ := foldl_insert_obs cs hn hok
  unfold insert_str
  rw [fix_eq_self hF]
  exact ⟨hF, h1, h2, h3, h4, h5⟩

/-- The commenting branch of `comment_current_line` on a normal state: the
marker is prepended to the cursor line, the column advances by the marker
length, and the state stays normal. -/
theorem comment_obs {s : CodeArea} (hn : Normal s)
    (hcm : ∀ c ∈ s.commentStr, c ≠ '\n' ∧ c ≠ '\t')
    (hbranch : (rowGet s s.cursor.1).length < s.commentStr.length ∨
      ¬((rowGet s s.cursor.1).take s.commentStr.length = s.commentStr)) :
    Normal (comment_current_line s) ∧
      (comment_current_line s).cursor =
        (s.cursor.1, s.cursor.2 + (s.commentStr.length : Int)) ∧
      rowGet (comment_current_line s) s.cursor.1 =
        s.commentStr ++ rowGet s s.cursor.1 ∧
      (comment_current_line s).commentStr = s.commentStr := by
  have hn1 : Normal { s with cursor := (s.cursor.1, (0 : Int)) } :=
    ⟨⟨hn.1.1, hn.1.2.1, le_refl 0, rowLen_nonneg _ _⟩, hn.2.1, hn.2.2⟩
  obtain ⟨hG, hg1, hg2, hg3, hg4, hg5⟩ := insert_str_obs hn1 hcm
  have e1 : ({ s with cursor := (s.cursor.1, (0 : Int)) } : CodeArea).cursor.1 =
      s.cursor.1 := rfl
  have e2 : ({ s with cursor := (s.cursor.1, (0 : Int)) } : CodeArea).cursor.2 =
      (0 : Int) := rfl
  have e3 : ({ s with cursor := (s.cursor.1, (0 : Int)) } : CodeArea).contents =
      s.contents := rfl
  have e4 : ({ s with cursor := (s.cursor.1, (0 : Int)) } : CodeArea).commentStr =
      s.commentStr := rfl
  have e5 : rowGet { s with cursor := (s.cursor.1, (0 : Int)) } s.cursor.1 =
      rowGet s s.cursor.1 := rfl
  rw [e1] at hg1
  rw [e2, zero_add] at hg2
  rw [e1, e2, e5] at hg3
  simp only [Int.toNat_zero, List.take_zero, List.drop_zero,
    List.nil_append] at hg3
  rw [e4] at hg4
  rw [e3] at hg5
  have hnY : Normal { insert_str { s with cursor := (s.cursor.1, (0 : Int)) }
      s.commentStr with
        cursor := (s.cursor.1, s.cursor.2 + (s.commentStr.length : Int)) } := by
    refine ⟨⟨hn.1.1, ?_, ?_, ?_⟩, hG.2.1, hG.2.2⟩
    · show s.cursor.1 <
        ((insert_str { s with cursor := (s.cursor.1, (0 : Int)) }
          s.commentStr).contents.length : Int)
      have h2 := hn.1.2.1
      omega
    · show (0 : Int) ≤ s.cursor.2 + (s.commentStr.length : Int)
      have h3 := hn.1.2.2.1
      omega
    · show s.cursor.2 + (s.commentStr.length : Int) ≤
        rowLen (insert_str { s with cursor := (s.cursor.1, (0 : Int)) }
          s.commentStr) s.cursor.1
      unfold rowLen
      rw [hg3, List.length_append]
      have hb := hn.1.2.2.2
      unfold rowLen at hb
      push_cast
      omega
  rw [comment_current_line_eq s, e5, if_pos hbranch]
  rw [fix_eq_self hnY]
  refine ⟨hnY, rfl, ?_, ?_⟩
  · show rowGet (insert_str { s with cursor := (s.cursor.1, (0 : Int)) }
      s.commentStr) s.cursor.1 = s.commentStr ++ rowGet s s.cursor.1
    exact hg3
  · show (insert_str { s with cursor := (s.cursor.1, (0 : Int)) }
      s.commentStr).commentStr = s.commentStr
    exact hg4

/-- The uncommenting branch of `comment_current_line` on a normal state: the
first marker-length characters of the cursor line are removed and the column
moves left by the marker length, floored at zero; the state stays normal. -/
theorem uncomment_obs {s : CodeArea} (hn : Normal s)
    (hlen : ¬((rowGet s s.cursor.1).length < s.commentStr.length))
    (htake : (rowGet s s.cursor.1).take s.commentStr.length = s.commentStr) :
    Normal (comment_current_line s) ∧
      (comment_current_line s).cursor =
        (s.cursor.1,
          if s.cursor.2 ≤ (s.commentStr.length : Int) then 0
          else s.cursor.2 - (s.commentStr.length : Int)) ∧
      rowGet (comment_current_line s) s.cursor.1 =
        (rowGet s s.cursor.1).drop s.commentStr.length ∧
      (comment_current_line s).commentStr = s.commentStr := by
  have e5 : rowGet { s with cursor := (s.cursor.1, (0 : Int)) } s.cursor.1 =
      rowGet s s.cursor.1 := rfl
  rw [comment_current_line_eq s, e5,
    if_neg (fun hor => Or.elim hor hlen (fun h => h htake))]
  unfold modifyRow
  dsimp only
  rw [e5]
  have hrowD : rowGet (rowSet { s with cursor := (s.cursor.1, (0 : Int)) }
      s.cursor.1 ((rowGet s s.cursor.1).drop s.commentStr.length)) s.cursor.1 =
      (rowGet s s.cursor.1).drop s.commentStr.length :=
    rowGet_rowSet_self _ hn.1.1 hn.1.2.1
  have hlastD : (rowSet { s with cursor := (s.cursor.1, (0 : Int)) } s.cursor.1
      ((rowGet s s.cursor.1).drop s.commentStr.length)).contents.getLast? =
      some [] := by
    show (s.contents.set (clampIdx { s with cursor := (s.cursor.1, (0 : Int)) }
      s.cursor.1) ((rowGet s s.cursor.1).drop s.commentStr.length)).getLast? =
      some []
    rw [clampIdx_eq { s with cursor := (s.cursor.1, (0 : Int)) }
      hn.1.1 hn.1.2.1]
    rw [list_getLast?_set _ _ _ (toNat_lt_length hn.1.1 hn.1.2.1)]
    by_cases hle : s.cursor.1.toNat = s.contents.length - 1
    · rw [if_pos hle]
      have hlempty : rowGet s s.cursor.1 = [] := by
        have hlast2 := hn.2.2
        rw [List.getLast?_eq_getElem?] at hlast2
        unfold rowGet
        rw [clampIdx_eq s hn.1.1 hn.1.2.1, List.getD_eq_getElem?_getD, hle,
          hlast2]
        rfl
      rw [hlempty, List.drop_nil]
    · rw [if_neg hle]
      exact hn.2.2
  have hlD : LinesOK (rowSet { s with cursor := (s.cursor.1, (0 : Int)) }
      s.cursor.1 ((rowGet s s.cursor.1).drop s.commentStr.length)) :=
    LinesOK_rowSet hn.2.1 (NoNL_drop (NoNL_rowGet hn.2.1 _) _) _
  by_cases hcol : s.cursor.2 ≤ (s.commentStr.length : Int)
  · rw [if_pos hcol, if_pos hcol]
    have hnY : Normal { rowSet { s with cursor := (s.cursor.1, (0 : Int)) }
        s.cursor.1 ((rowGet s s.cursor.1).drop s.commentStr.length) with
          cursor := (s.cursor.1, (0 : Int)) } := by
      refine ⟨⟨hn.1.1, ?_, le_refl _, ?_⟩, hlD, hlastD⟩
      · show s.cursor.1 <
          ((rowSet { s with cursor := (s.cursor.1, (0 : Int)) } s.cursor.1
            ((rowGet s s.cursor.1).drop s.commentStr.length)).contents.length : Int)
        rw [rowSet_length]
        exact hn.1.2.1
      · show (0 : Int) ≤
          rowLen (rowSet { s with cursor := (s.cursor.1, (0 : Int)) } s.cursor.1
            ((rowGet s s.cursor.1).drop s.commentStr.length)) s.cursor.1
        exact rowLen_nonneg _ _
    rw [fix_eq_self hnY]
    refine ⟨hnY, rfl, ?_, rfl⟩
    show rowGet (rowSet { s with cursor := (s.cursor.1, (0 : Int)) }
        s.cursor.1 ((rowGet s s.cursor.1).drop s.commentStr.length)) s.cursor.1 =
      (rowGet s s.cursor.1).drop s.commentStr.length
    exact hrowD
  · rw [if_neg hcol, if_neg hcol]
    have hnY : Normal { rowSet { s with cursor := (s.cursor.1, (0 : Int)) }
        s.cursor.1 ((rowGet s s.cursor.1).drop s.commentStr.length) with
          cursor := (s.cursor.1, s.cursor.2 - (s.commentStr.length : Int)) } := by
      refine ⟨⟨hn.1.1, ?_, ?_, ?_⟩, hlD, hlastD⟩
      · show s.cursor.1 <
          ((rowSet { s with cursor := (s.cursor.1, (0 : Int)) } s.cursor.1
            ((rowGet s s.cursor.1).drop s.commentStr.length)).contents.length : Int)
        rw [rowSet_length]
        exact hn.1.2.1
      · show (0 : Int) ≤ s.cursor.2 - (s.commentStr.length : Int)
        omega
      · show s.cursor.2 - (s.commentStr.length : Int) ≤
          rowLen (rowSet { s with cursor := (s.cursor.1, (0 : Int)) } s.cursor.1
            ((rowGet s s.cursor.1).drop s.commentStr.length)) s.cursor.1
        unfold rowLen
        rw [hrowD, List.length_drop]
        have hb := hn.1.2.2.2
        unfold rowLen at hb
        omega
    rw [fix_eq_self hnY]
    refine ⟨hnY, rfl, ?_, rfl⟩
    show rowGet (rowSet { s with cursor := (s.cursor.1, (0 : Int)) }
        s.cursor.1 ((rowGet s s.cursor.1).drop s.commentStr.length)) s.cursor.1 =
      (rowGet s s.cursor.1).drop s.commentStr.length
    exact hrowD

/-- Claim C5 counterexample: on the buffer `["// // x", ""]` with the cursor
at the origin, toggling the line comment twice does not restore the line —
both toggles uncomment, leaving `"x"`. -/
theorem C5_cex :
    rowGet (comment_current_line (comment_current_line c5state))
        c5state.cursor.1 ≠ rowGet c5state c5state.cursor.1 := by
  decide

/-- Claim C5, amended: toggling the line comment twice restores the cursor
line and the cursor exactly, provided the line does not already start with
the comment marker (or is shorter than it), so that the first toggle
comments and the second uncomments. -/
theorem C5_amended (s : CodeArea) (hn : Normal s)
    (hcm : ∀ c ∈ s.commentStr, c ≠ '\n' ∧ c ≠ '\t')
    (hbranch : (rowGet s s.cursor.1).length < s.commentStr.length ∨
      ¬((rowGet s s.cursor.1).take s.commentStr.length = s.commentStr)) :
    rowGet (comment_current_line (comment_current_line s)) s.cursor.1 =
        rowGet s s.cursor.1 ∧
      (comment_current_line (comment_current_line s)).cursor = s.cursor := by
  obtain ⟨h1n, hcur1, hrow1, hcmt1⟩ := comment_obs hn hcm hbranch
  have hr : (comment_current_line s).cursor.1 = s.cursor.1 := by rw [hcur1]
  have hc2 : (comment_current_line s).cursor.2 =
      s.cursor.2 + (s.commentStr.length : Int) := by rw [hcur1]
  have hlen2 : ¬((rowGet (comment_current_line s)
      (comment_current_line s).cursor.1).length <
        (comment_current_line s).commentStr.length) := by
    rw [hcmt1, hr, hrow1, List.length_append]
    omega
  have htake2 : (rowGet (comment_current_line s)
      (comment_current_line s).cursor.1).take
        (comment_current_line s).commentStr.length =
      (comment_current_line s).commentStr := by
    rw [hcmt1, hr, hrow1]
    exact List.take_left _ _
  obtain ⟨h2n, hcur2, hrow2, hcmt2⟩ := uncomment_obs h1n hlen2 htake2
  rw [hr] at hrow2 hcur2
  rw [hrow1, hcmt1] at hrow2
  rw [hc2, hcmt1] at hcur2
  constructor
  · rw [hrow2]
    exact List.drop_left _ _
  · rw [hcur2]
    by_cases hc0 : s.cursor.2 + (s.commentStr.length : Int) ≤
        (s.commentStr.length : Int)
    · rw [if_pos hc0]
      have hz : (0 : Int) = s.cursor.2 :=
        le_antisymm hn.1.2.2.1 (by omega)
      rw [hz]
    · rw [if_neg hc0]
      have hz : s.cursor.2 + (s.commentStr.length : Int) -
          (s.commentStr.length : Int) = s.cursor.2 := by ring
      rw [hz]

/-- Claim C5 witness: from the buffer `["x", ""]` with the cursor at
`(0, 1)`, commenting then uncommenting restores both the line and the
cursor. -/
theorem C5_witness :
    rowGet (comment_current_line (comment_current_line c5wstate))
        c5wstate.cursor.1 = rowGet c5wstate c5wstate.cursor.1 ∧
      (comment_current_line (comment_current_line c5wstate)).cursor =
        c5wstate.cursor :=
  C5_amended c5wstate (by decide) (by decide) (by decide)

/-! ## Highlighter claims C7 and C8 -/

/-- A table hit implies the whole-word conditions of the source loops:
membership, a non-alphabetic (or absent) preceding character, the slice
equality, and a non-alphabetic following character. -/
theorem findEntry_whole_word {entries : List Line} {code : Line} {i : Nat}
    {e : Line} (h : findEntry entries code i = some e) :
    e ∈ entries ∧
      (∀ c, 0 < i → code.get? (i - 1) = some c → c.isAlpha = false) ∧
      (code.drop i).take e.length = e ∧
      ∃ c, code.get? (i + e.length) = some c ∧ c.isAlpha = false := by
  unfold findEntry at h
  by_cases hb : prevAlphaBlock code i = true
  · rw [if_pos hb] at h
    exact Option.noConfusion h
  · rw [if_neg hb] at h
    have hmem := List.mem_of_find?_eq_some h
    have htest := List.find?_some h
    unfold entryTest at htest
    rw [Bool.and_eq_true, Bool.and_eq_true] at htest
    obtain ⟨⟨-, hslice⟩, hnext⟩ := htest
    refine ⟨hmem, ?_, eq_of_beq hslice, ?_⟩
    · intro c hi hc
      by_contra hA
      rw [Bool.not_eq_false] at hA
      apply hb
      unfold prevAlphaBlock
      rw [hc]
      simp [hi, hA]
    · cases hg : code.get? (i + e.length) with
      | none => rw [hg] at hnext; simp at hnext
      | some c =>
        rw [hg] at hnext
        refine ⟨c, rfl, ?_⟩
        rw [show (match some c with
            | some c => !c.isAlpha
            | none => false) = !c.isAlpha from rfl] at hnext
        rw [Bool.not_eq_true'] at hnext
        exact hnext

theorem keywords_headAlpha : ∀ e ∈ keywords, headAlpha e = true := by decide

theorem types_headAlpha : ∀ e ∈ types, headAlpha e = true := by decide

/-- No table entry can match at a position holding a non-alphabetic
character (every entry begins with a letter). -/
theorem findEntry_none_of_head {entries : List Line} {code : Line} {i : Nat}
    {q : Char} (hq : code.get? i = some q) (hqa : q.isAlpha = false)
    (hheads : ∀ e ∈ entries, headAlpha e = true) :
    findEntry entries code i = none := by
  unfold findEntry
  split
  · rfl
  · apply List.find?_eq_none.mpr
    intro e he ht
    unfold entryTest at ht
    rw [Bool.and_eq_true, Bool.and_eq_true] at ht
    obtain ⟨⟨-, hslice⟩, -⟩ := ht
    have hs := eq_of_beq hslice
    cases e with
    | nil =>
      have := hheads [] he
      simp [headAlpha] at this
    | cons c cs =>
      have h1 : code.get? i = some c := by
        have h0 : ((code.drop i).take (c :: cs).length).get? 0 = some c := by
          rw [hs]
          rfl
        rw [List.get?_eq_getElem?, List.getElem?_take] at h0
        rw [if_pos (by simp)] at h0
        rw [List.getElem?_drop] at h0
        rw [List.get?_eq_getElem?]
        simpa using h0
      rw [hq] at h1
      cases Option.some.inj h1
      have hca := hheads (q :: cs) he
      rw [show headAlpha (q :: cs) = q.isAlpha from rfl, hqa] at hca
      exact Bool.noConfusion hca

/-- Claim C8: the highlighter tags a keyword-table or type-table entry only
on whole-word matches — the preceding character (if any) is non-alphabetic
and the following character is non-alphabetic; in particular highlighting
"integer" produces no keyword or type span, and highlighting "int x" tags
exactly "int" as a type and leaves the rest plain. -/
theorem C8_whole_word :
    (∀ (entries : List Line) (code : Line) (i : Nat) (e : Line),
        findEntry entries code i = some e →
          e ∈ entries ∧
          (∀ c, 0 < i → code.get? (i - 1) = some c → c.isAlpha = false) ∧
          (code.drop i).take e.length = e ∧
          ∃ c, code.get? (i + e.length) = some c ∧ c.isAlpha = false) ∧
      (∀ p ∈ highlight "integer".data,
        p.2 ≠ HStyle.keyword ∧ p.2 ≠ HStyle.typeS) ∧
      highlight "int x".data =
        [("int".data, HStyle.typeS), ([' '], HStyle.plain),
          (['x'], HStyle.plain), ([' '], HStyle.plain)] := by
  refine ⟨fun entries code i e h => findEntry_whole_word h, ?_, ?_⟩
  · decide
  · decide

/-- Witness for C8: the keyword "if" matches at position 0 of "if ". -/
theorem C8_witness :
    "if".data ∈ keywords ∧
      (∀ c, 0 < 0 → ("if ".data).get? (0 - 1) = some c → c.isAlpha = false) ∧
      (("if ".data).drop 0).take ("if".data).length = "if".data ∧
      ∃ c, ("if ".data).get? (0 + ("if".data).length) = some c ∧
        c.isAlpha = false :=
  C8_whole_word.1 keywords "if ".data 0 "if".data (by decide)

/-- Claim C7 counterexample: in the line made of a backslash followed by a
double quote, the quote at index 1 is immediately preceded by a backslash,
yet it toggles the in-string mode (the guard in the source requires
`i > 1`): the final in-string flag of the scan is true. -/
theorem C7_cex :
    ("\\\"".data).get? 1 = some '"' ∧ ("\\\"".data).get? 0 = some '\\' ∧
      (highlightRun "\\\"".data).in_string = true := by decide

/-- Claim C7 (amended): when the scanner reaches a double quote with no
pending skip, the quote is styled as a string delimiter; it leaves the
in-string mode unchanged only when its index is at least 2 and the previous
character is a backslash — an escaped quote at index 1 still toggles the
mode (see the counterexample); every other quote toggles the mode. -/
theorem C7_amended (code : Line) (i : Nat) (st : HState)
    (hskip : st.skip = 0) (hq : code.get? i = some '"') :
    (1 < i ∧ code.get? (i - 1) = some '\\' →
      stepHighlight code i st =
        { st with spans := st.spans ++ [(['"'], HStyle.stringS)] }) ∧
    (¬(1 < i ∧ code.get? (i - 1) = some '\\') →
      stepHighlight code i st =
        { st with spans := st.spans ++ [(['"'], HStyle.stringS)],
                  in_string := !st.in_string }) := by
  have hk : findEntry keywords code i = none :=
    findEntry_none_of_head hq (by decide) keywords_headAlpha
  have ht : findEntry types code i = none :=
    findEntry_none_of_head hq (by decide) types_headAlpha
  unfold stepHighlight
  rw [hk, ht]
  dsimp only
  rw [hskip]
  rw [if_neg (by decide : ¬(0 < 0))]
  rw [hq]
  dsimp only
  constructor
  · rintro ⟨hi, hprev⟩
    unfold classify
    rw [if_pos ⟨rfl, hi, hprev⟩, hskip]
  · intro hn
    unfold classify
    rw [if_neg (fun hcon => hn ⟨hcon.2.1, hcon.2.2⟩), if_pos rfl, hskip]

/-- Witness for C7: an escaped quote at index 2 is styled string and leaves
the mode unchanged. -/
theorem C7_witness :
    stepHighlight ['a', '\\', '"', 'b'] 2
        { spans := [], in_string := false, skip := 0 } =
      { spans := [(['"'], HStyle.stringS)], in_string := false, skip := 0 } :=
  (C7_amended ['a', '\\', '"', 'b'] 2
    { spans := [], in_string := false, skip := 0 } rfl rfl).1
    ⟨by decide, rfl⟩

/-- Witness for C10 on a concrete state away from the origin. -/
theorem C10_witness :
    RepairedBuffer (insert c10state 'x') ∧
      RepairedBuffer (insert_str c10state ['y']) ∧
      RepairedBuffer (delete c10state) ∧ RepairedBuffer (backspace c10state) ∧
      RepairedBuffer (cut c10state) ∧ RepairedBuffer (copy c10state) ∧
      RepairedBuffer (paste c10state) ∧
      RepairedBuffer (copy_line_down c10state) ∧
      RepairedBuffer (comment_current_line c10state) ∧
      RepairedBuffer (comment_selection c10state) ∧
      RepairedBuffer (move_cursor_left c10state) ∧
      RepairedBuffer (move_cursor_right c10state) ∧
      RepairedBuffer (move_cursor_up c10state) ∧
      RepairedBuffer (move_cursor_down c10state) := by
  obtain ⟨a1, a2, a3, a4, a5, a6, a7, a8, a9, a10, a11, a12, a13, a14⟩ :=
    C10_amended c10state 'x' ['y']
  exact ⟨a1, a2, a3, a4 (by decide), a5, a6, a7, a8, a9, a10,
    a11 (by decide), a12, a13 (by decide), a14⟩

end Editor
